import Mathlib

/-!
Stock_Trading_Engine: order store, best-price scan, matching loop, submission.

Shallow embedding of `src/Stock_Trading_Engine.cpp` (single-threaded runs).

* `int` values are `Int`; the two atomic counters wrap at 32 bits (`wrap32`).
* `double` prices are only copied and compared by the engine, never computed
  with, so a price is modelled by an exact rational (every finite double is one).
* The global array `orders[MAX_ORDERS]` is a map from slot index to `Order`;
  the slots a C++ run may touch are those with index below `MAX_ORDERS`.
* Console output is modelled as a list of `Event`s.
-/

namespace StockTradingEngine

/-- Capacity of the global order array (`const int MAX_ORDERS = 50000`). -/
def MAX_ORDERS : Int := 50000

/-- Side of an order (`enum OrderType`). -/
inductive OrderType where
  | BUY
  | SELL
  deriving DecidableEq, Repr

/-- One slot of the order array (`struct Order`). -/
structure Order where
  orderId : Int
  type : OrderType
  ticker : Int
  quantity : Int
  price : ℚ
  active : Bool
  deriving DecidableEq

/-- Content of a slot of the zero-initialised global array before it is written. -/
def zeroOrder : Order :=
  { orderId := 0, type := OrderType.BUY, ticker := 0, quantity := 0, price := 0, active := false }

/-- The process-wide state: the array `orders` and the counters `orderCount`,
`globalOrderId`. -/
structure Store where
  orders : Nat → Order
  orderCount : Int
  globalOrderId : Int

/-- State at program start: every slot zero-initialised, both counters 0. -/
def emptyStore : Store :=
  { orders := fun _ => zeroOrder, orderCount := 0, globalOrderId := 0 }

/-- Two's-complement wrap of an `int` result, as done by `std::atomic<int>::fetch_add`. -/
def wrap32 (x : Int) : Int := (x + 2147483648) % 4294967296 - 2147483648

/-- Overwrite slot `i` of the array. -/
def Store.setOrder (s : Store) (i : Nat) (o : Order) : Store :=
  { s with orders := fun j => if j = i then o else s.orders j }

/-- Effect of `orders[i].quantity.fetch_sub(q)`. The matching loop only calls it
with `0 < q` and `q` at most the quantity of either matched order, so the
32-bit result is the exact difference. -/
def Store.subQuantity (s : Store) (i : Nat) (q : Int) : Store :=
  s.setOrder i { s.orders i with quantity := (s.orders i).quantity - q }

/-- Effect of `orders[i].active.store(false)`. -/
def Store.deactivate (s : Store) (i : Nat) : Store :=
  s.setOrder i { s.orders i with active := false }

/-- The four locals a scan maintains: `bestBuy`, `bestSell`, `bestBuyPrice`, `bestSellPrice`. -/
structure Best where
  bestBuy : Int
  bestSell : Int
  bestBuyPrice : ℚ
  bestSellPrice : ℚ
  deriving DecidableEq

/-- Values of the scan locals before the loop: indices `-1`, prices `-1.0` and `1e9`. -/
def initBest : Best :=
  { bestBuy := -1, bestSell := -1, bestBuyPrice := -1, bestSellPrice := 1000000000 }

/-- Body of the scan loop for slot `i` (lines 44-63, identically lines 76-95). -/
def scanStep (s : Store) (ticker : Int) (b : Best) (i : Nat) : Best :=
  if (s.orders i).active = false ∨ (s.orders i).ticker ≠ ticker then b
  else if (s.orders i).type = OrderType.BUY then
    if (s.orders i).quantity > 0 ∧ (s.orders i).price > b.bestBuyPrice then
      { b with bestBuyPrice := (s.orders i).price, bestBuy := (i : Int) }
    else b
  else
    if (s.orders i).quantity > 0 ∧ (s.orders i).price < b.bestSellPrice then
      { b with bestSellPrice := (s.orders i).price, bestSell := (i : Int) }
    else b

/-- The scan `findBestOrders(ticker, bestBuyPrice, bestSellPrice)`: slots
`0 .. orderCount-1` in increasing order. The returned pair and the two
reference parameters are the four fields of the result. -/
def findBestOrders (s : Store) (ticker : Int) : Best :=
  (List.range s.orderCount.toNat).foldl (scanStep s ticker) initBest

/-- One line `Matched Ticker t: Trade Qty = q at Price = p`. The fields `buy`
and `sell` record the slots `bestBuy`, `bestSell` the line was printed for;
they are not part of the printed text. -/
structure Trade where
  ticker : Int
  quantity : Int
  price : ℚ
  buy : Nat
  sell : Nat
  deriving DecidableEq

/-- What a run of the matching loop produced: the final store, the trades in
the order printed, and every store the loop passed through (after each
`fetch_sub` and each deactivation test), in order. -/
structure MatchResult where
  store : Store
  trades : List Trade
  trace : List Store

/-- The `while` loop of `matchOrder` (lines 98-125), entered with the scan
locals `b`. `fuel` bounds the number of loop tests; `none` means the bound was
reached before the loop ended. -/
def matchLoop (ticker : Int) : Nat → Store → Best → Option MatchResult
  | 0, _, _ => none
  | fuel + 1, s, b =>
    if b.bestBuy ≠ -1 ∧ b.bestSell ≠ -1 ∧ b.bestBuyPrice ≥ b.bestSellPrice then
      let bi := b.bestBuy.toNat
      let si := b.bestSell.toNat
      let buyQty := (s.orders bi).quantity
      let sellQty := (s.orders si).quantity
      if buyQty ≤ 0 ∨ sellQty ≤ 0 then some { store := s, trades := [], trace := [] }
      else
        let tradeQty := if buyQty < sellQty then buyQty else sellQty
        let s1 := s.subQuantity bi tradeQty
        let s2 := s1.subQuantity si tradeQty
        let t : Trade :=
          { ticker := ticker, quantity := tradeQty, price := (s2.orders si).price,
            buy := bi, sell := si }
        let s3 := if (s2.orders bi).quantity ≤ 0 then s2.deactivate bi else s2
        let s4 := if (s3.orders si).quantity ≤ 0 then s3.deactivate si else s3
        (matchLoop ticker fuel s4 (findBestOrders s4 ticker)).map fun r =>
          { store := r.store, trades := t :: r.trades, trace := s1 :: s2 :: s3 :: s4 :: r.trace }
    else some { store := s, trades := [], trace := [] }

/-- The function `matchOrder(ticker)`: the inline first scan (lines 70-96, the
same loop as `findBestOrders`) followed by the matching loop. The loop is
given `orderCount + 1` tests, which `matchOrder_isSome` shows is always enough. -/
def matchOrder (s : Store) (ticker : Int) : Option MatchResult :=
  matchLoop ticker (s.orderCount.toNat + 1) s (findBestOrders s ticker)

/-- Lines written to the console. -/
inductive Event where
  | bookFull
  | added (orderId : Int) (type : OrderType) (ticker : Int) (quantity : Int) (price : ℚ)
  | matched (ticker : Int) (quantity : Int) (price : ℚ)
  deriving DecidableEq

/-- How a call of `addOrder` ended. -/
inductive Outcome where
  | BookFull
  | accepted (orderId : Int)
  deriving DecidableEq

/-- What a call of `addOrder` produced: final store, outcome, console lines,
the trades of its matching pass, and every store the call passed through
after the new slot was initialised. -/
structure AddResult where
  store : Store
  outcome : Outcome
  events : List Event
  trades : List Trade
  trace : List Store

/-- The function `addOrder(type, ticker, quantity, price)`. `none` stands for a
run without defined behaviour: a write to `orders[idx]` with `idx < 0`
(or a matching loop that exceeded its bound, which never happens). -/
def addOrder (s : Store) (type : OrderType) (ticker quantity : Int) (price : ℚ) :
    Option AddResult :=
  let idx := s.orderCount
  let s0 : Store := { s with orderCount := wrap32 (s.orderCount + 1) }
  if idx ≥ MAX_ORDERS then
    some { store := s0, outcome := Outcome.BookFull, events := [Event.bookFull],
           trades := [], trace := [] }
  else if idx < 0 then none
  else
    let id := s0.globalOrderId
    let s1 : Store := { s0 with globalOrderId := wrap32 (s0.globalOrderId + 1) }
    let s2 := s1.setOrder idx.toNat
      { orderId := id, type := type, ticker := ticker, quantity := quantity,
        price := price, active := true }
    (matchOrder s2 ticker).map fun r =>
      { store := r.store, outcome := Outcome.accepted id,
        events := Event.added id type ticker quantity price ::
          r.trades.map (fun t => Event.matched t.ticker t.quantity t.price),
        trades := r.trades, trace := s2 :: r.trace }

/-- Arguments of one `addOrder` call. -/
structure Request where
  type : OrderType
  ticker : Int
  quantity : Int
  price : ℚ
  deriving DecidableEq

/-- Run `addOrder` for the request `r`. -/
def submit (s : Store) (r : Request) : Option AddResult :=
  addOrder s r.type r.ticker r.quantity r.price

/-- Sequential calls of `addOrder`, one per request, from store `s`: the
results of the calls in order, or `none` when some call has no defined behaviour. -/
def submitAll : Store → List Request → Option (List AddResult)
  | _, [] => some []
  | s, r :: rs =>
    match submit s r with
    | none => none
    | some a => (submitAll a.store rs).map (fun l => a :: l)

/-- Store after a list of call results, starting from `s`. -/
def finalStore : Store → List AddResult → Store
  | s, [] => s
  | _, a :: l => finalStore a.store l

/-- Slot `i` holds an order that a scan for `ticker` considers on side `side`:
active, of that instrument and side, with remaining quantity above 0. -/
def qualifies (s : Store) (ticker : Int) (side : OrderType) (i : Nat) : Prop :=
  (s.orders i).active = true ∧ (s.orders i).ticker = ticker ∧
    (s.orders i).type = side ∧ 0 < (s.orders i).quantity

instance (s : Store) (ticker : Int) (side : OrderType) (i : Nat) :
    Decidable (qualifies s ticker side i) := by
  unfold qualifies; infer_instance

/-- The scan restricted to the first `n` slots. -/
def scanTo (s : Store) (ticker : Int) (n : Nat) : Best :=
  (List.range n).foldl (scanStep s ticker) initBest

/-- What the buy side of a scan of the first `n` slots must satisfy: either no
qualifying BUY order is priced above `-1.0` and the locals keep their initial
values, or `bestBuy` is the lowest slot among the qualifying BUY orders of
highest price, that price is above `-1.0`, and `bestBuyPrice` is that price. -/
def BuySpec (s : Store) (t : Int) (n : Nat) (b : Best) : Prop :=
  (b.bestBuy = -1 ∧ b.bestBuyPrice = -1 ∧
      ∀ i, i < n → qualifies s t OrderType.BUY i → (s.orders i).price ≤ -1) ∨
  (∃ k, k < n ∧ b.bestBuy = (k : Int) ∧ b.bestBuyPrice = (s.orders k).price ∧
      -1 < (s.orders k).price ∧ qualifies s t OrderType.BUY k ∧
      (∀ i, i < n → qualifies s t OrderType.BUY i → (s.orders i).price ≤ (s.orders k).price) ∧
      (∀ i, i < k → qualifies s t OrderType.BUY i → (s.orders i).price < (s.orders k).price))

/-- What the sell side of a scan of the first `n` slots must satisfy: either no
qualifying SELL order is priced below `1e9` and the locals keep their initial
values, or `bestSell` is the lowest slot among the qualifying SELL orders of
lowest price, that price is below `1e9`, and `bestSellPrice` is that price. -/
def SellSpec (s : Store) (t : Int) (n : Nat) (b : Best) : Prop :=
  (b.bestSell = -1 ∧ b.bestSellPrice = 1000000000 ∧
      ∀ i, i < n → qualifies s t OrderType.SELL i → 1000000000 ≤ (s.orders i).price) ∨
  (∃ k, k < n ∧ b.bestSell = (k : Int) ∧ b.bestSellPrice = (s.orders k).price ∧
      (s.orders k).price < 1000000000 ∧ qualifies s t OrderType.SELL k ∧
      (∀ i, i < n → qualifies s t OrderType.SELL i → (s.orders k).price ≤ (s.orders i).price) ∧
      (∀ i, i < k → qualifies s t OrderType.SELL i → (s.orders k).price < (s.orders i).price))

/-- The test of the `while` loop of `matchOrder` on the scan locals. -/
def loopCond (b : Best) : Prop :=
  b.bestBuy ≠ -1 ∧ b.bestSell ≠ -1 ∧ b.bestBuyPrice ≥ b.bestSellPrice

instance (b : Best) : Decidable (loopCond b) := by
  unfold loopCond; infer_instance

/-- The local `tradeQty` of a loop iteration entered in store `s` with scan locals `b`. -/
def tradeQty (s : Store) (b : Best) : Int :=
  if (s.orders b.bestBuy.toNat).quantity < (s.orders b.bestSell.toNat).quantity then
    (s.orders b.bestBuy.toNat).quantity
  else (s.orders b.bestSell.toNat).quantity

/-- Store of a loop iteration after `buyOrder.quantity.fetch_sub(tradeQty)`. -/
def afterBuySub (s : Store) (b : Best) : Store :=
  s.subQuantity b.bestBuy.toNat (tradeQty s b)

/-- Store of a loop iteration after `sellOrder.quantity.fetch_sub(tradeQty)`. -/
def afterSellSub (s : Store) (b : Best) : Store :=
  (afterBuySub s b).subQuantity b.bestSell.toNat (tradeQty s b)

/-- Store of a loop iteration after the deactivation test of the buy order. -/
def afterBuyDeact (s : Store) (b : Best) : Store :=
  if ((afterSellSub s b).orders b.bestBuy.toNat).quantity ≤ 0 then
    (afterSellSub s b).deactivate b.bestBuy.toNat
  else afterSellSub s b

/-- Store at the end of a loop iteration, after the deactivation test of the sell order. -/
def afterTrade (s : Store) (b : Best) : Store :=
  if ((afterBuyDeact s b).orders b.bestSell.toNat).quantity ≤ 0 then
    (afterBuyDeact s b).deactivate b.bestSell.toNat
  else afterBuyDeact s b

/-- The trade line a loop iteration prints. -/
def tradeOf (t : Int) (s : Store) (b : Best) : Trade :=
  { ticker := t, quantity := tradeQty s b,
    price := ((afterSellSub s b).orders b.bestSell.toNat).price,
    buy := b.bestBuy.toNat, sell := b.bestSell.toNat }

/-- Number of slots below `orderCount` holding an active order of instrument `t`
with remaining quantity above 0: the measure that bounds the matching loop. -/
def qualCount (s : Store) (t : Int) : Nat :=
  ((Finset.range s.orderCount.toNat).filter
    (fun i => (s.orders i).active = true ∧ (s.orders i).ticker = t ∧
      0 < (s.orders i).quantity)).card

/-- The counters and the fields `orderId`, `type`, `ticker`, `price` of every
slot are the same in `s2` as in `s1`. -/
def SameFrame (s1 s2 : Store) : Prop :=
  s2.orderCount = s1.orderCount ∧ s2.globalOrderId = s1.globalOrderId ∧
  ∀ i, (s2.orders i).orderId = (s1.orders i).orderId ∧ (s2.orders i).type = (s1.orders i).type ∧
    (s2.orders i).ticker = (s1.orders i).ticker ∧ (s2.orders i).price = (s1.orders i).price

/-- A move from `s1` to `s2` that keeps the frame, raises no quantity, keeps
non-negative quantities non-negative and activates no order. -/
def QStep (s1 s2 : Store) : Prop :=
  SameFrame s1 s2 ∧
  ∀ i, (s2.orders i).quantity ≤ (s1.orders i).quantity ∧
    (0 ≤ (s1.orders i).quantity → 0 ≤ (s2.orders i).quantity) ∧
    ((s2.orders i).active = true → (s1.orders i).active = true)

/-- What holds of a trade line `tr` printed by a matching pass for instrument
`t` that started in store `s` and passed through the stores `trace`. -/
def TradeOK (t : Int) (s : Store) (trace : List Store) (tr : Trade) : Prop :=
  tr.ticker = t ∧ 0 < tr.quantity ∧
  tr.buy < s.orderCount.toNat ∧ tr.sell < s.orderCount.toNat ∧
  (s.orders tr.buy).type = OrderType.BUY ∧ (s.orders tr.sell).type = OrderType.SELL ∧
  (s.orders tr.buy).ticker = t ∧ (s.orders tr.sell).ticker = t ∧
  tr.price = (s.orders tr.sell).price ∧ tr.price ≤ (s.orders tr.buy).price ∧
  ∃ pre post, [pre, post] <:+: trace ∧ post = pre.subQuantity tr.sell tr.quantity ∧
    tr.price = (post.orders tr.sell).price

/-- Store of an accepted `addOrder` call right after the new slot is initialised
(lines 130-142), before the matching pass. -/
def afterInsert (s : Store) (type : OrderType) (ticker quantity : Int) (price : ℚ) : Store :=
  ({ s with orderCount := wrap32 (s.orderCount + 1),
            globalOrderId := wrap32 (s.globalOrderId + 1) } : Store).setOrder s.orderCount.toNat
    { orderId := s.globalOrderId, type := type, ticker := ticker, quantity := quantity,
      price := price, active := true }

/-- Slot `i` holds an order that has been created: it lies in the array and
below the slot counter. -/
def created (s : Store) (i : Nat) : Prop := (i : Int) < s.orderCount ∧ (i : Int) < MAX_ORDERS

instance (s : Store) (i : Nat) : Decidable (created s i) := by
  unfold created; infer_instance

/-- Every order with no remaining quantity is inactive. -/
def Settled (s : Store) : Prop := ∀ i, (s.orders i).quantity ≤ 0 → (s.orders i).active = false

/-- No quantity of a created order is higher in `s2` than in `s1`. -/
def Mono (s1 s2 : Store) : Prop :=
  ∀ i, created s1 i → (s2.orders i).quantity ≤ (s1.orders i).quantity

/-- All stores a list of `addOrder` results passed through, in order. -/
def statesOf : List AddResult → List Store
  | [] => []
  | a :: l => a.trace ++ a.store :: statesOf l

/-- Counters and ids after `n` sequential `addOrder` calls from the empty store:
the slot counter is `n` (wrapped), the id counter is the number of stored
orders, and the order in slot `i` has id `i`. -/
def IdInv (n : Nat) (s : Store) : Prop :=
  n ≤ 2147483648 ∧ s.orderCount = wrap32 n ∧ s.globalOrderId = min (n : Int) 50000 ∧
  (∀ i : Nat, (i : Int) < min (n : Int) 50000 → (s.orders i).orderId = i)

/-- What holds of the store after `n` sequential `addOrder` calls with positive
quantities from the empty store. -/
def Inv (n : Nat) (s : Store) : Prop :=
  IdInv n s ∧
  (∀ i : Nat, min (n : Int) 50000 ≤ (i : Int) → s.orders i = zeroOrder) ∧
  (∀ i, 0 ≤ (s.orders i).quantity) ∧ Settled s

/-- Of two call results, the earlier got the smaller order id (when both were accepted). -/
def IdBefore (a1 a2 : AddResult) : Prop :=
  ∀ id1 id2, a1.outcome = Outcome.accepted id1 → a2.outcome = Outcome.accepted id2 → id1 < id2

/-- An order that exists and is inactive after the earlier call is inactive after the later. -/
def StaysInactive (a1 a2 : AddResult) : Prop :=
  ∀ i, created a1.store i → (a1.store.orders i).active = false →
    (a2.store.orders i).active = false

/-- A short run used to instantiate the theorems: SELL 50 @ 50 and BUY 100 @ 60 on
instrument 1 (they trade), then BUY 5 @ 7 on instrument 2. -/
def sampleRun : List Request :=
  [⟨OrderType.SELL, 1, 50, 50⟩, ⟨OrderType.BUY, 1, 100, 60⟩, ⟨OrderType.BUY, 2, 5, 7⟩]

/-- The results of the calls of `sampleRun` from the empty store. -/
def sampleResults : List AddResult := (submitAll emptyStore sampleRun).getD []

/-- The store after `k` accepted calls `addOrder(BUY, 0, 1, 10.0)` from the empty store. -/
def buyStore (k : Nat) : Store :=
  { orders := fun i =>
      if i < k then
        { orderId := (i : Int), type := OrderType.BUY, ticker := 0, quantity := 1, price := 10,
          active := true }
      else zeroOrder,
    orderCount := (k : Int), globalOrderId := (k : Int) }

/-- The store after 50000 accepted calls `addOrder(BUY, 0, 1, 10.0)`: the array is full. -/
def fullStore : Store := buyStore 50000

/-- The result of `addOrder(BUY, 0, 1, 10.0)` on `fullStore`. -/
def fullResult : AddResult :=
  { store := { fullStore with orderCount := 50001 }, outcome := Outcome.BookFull,
    events := [Event.bookFull], trades := [], trace := [] }

/-- Instrument `t` has an active BUY order and an active SELL order among the
created slots of `s` with buy price at least the sell price. -/
def Crossed (s : Store) (t : Int) : Prop :=
  ∃ i j, created s i ∧ created s j ∧
    (s.orders i).active = true ∧ (s.orders i).type = OrderType.BUY ∧ (s.orders i).ticker = t ∧
    (s.orders j).active = true ∧ (s.orders j).type = OrderType.SELL ∧ (s.orders j).ticker = t ∧
    (s.orders i).price ≥ (s.orders j).price

/-- The requests that fill the array: 50000 times `addOrder(BUY, 0, 1, 10.0)`. -/
def fillRequests : List Request := List.replicate 50000 ⟨OrderType.BUY, 0, 1, 10⟩

/-- Two crossing requests on instrument 0 whose sell price is the scan's initial
`bestSellPrice`: SELL 1 @ 1e9, then BUY 1 @ 2e9. -/
def crossedRun : List Request :=
  [⟨OrderType.SELL, 0, 1, 1000000000⟩, ⟨OrderType.BUY, 0, 1, 2000000000⟩]

/-- The results of the calls of `crossedRun` from the empty store. -/
def crossedResults : List AddResult := (submitAll emptyStore crossedRun).getD []

/-- Every price in the array lies strictly between the two initial scan prices
`-1.0` and `1e9`. -/
def PricesInRange (s : Store) : Prop :=
  ∀ i, -1 < (s.orders i).price ∧ (s.orders i).price < 1000000000

/-- Whether a run of the `while` loop of `matchOrder` from store `s` and scan
locals `b` executes the `break` of the re-check `buyQty <= 0 || sellQty <= 0`
(line 105) within `fuel` loop tests. It follows the same iterations as `matchLoop`. -/
def breakTaken (t : Int) : Nat → Store → Best → Bool
  | 0, _, _ => false
  | fuel + 1, s, b =>
    if b.bestBuy ≠ -1 ∧ b.bestSell ≠ -1 ∧ b.bestBuyPrice ≥ b.bestSellPrice then
      if (s.orders b.bestBuy.toNat).quantity ≤ 0 ∨ (s.orders b.bestSell.toNat).quantity ≤ 0 then
        true
      else breakTaken t fuel (afterTrade s b) (findBestOrders (afterTrade s b) t)
    else false

/-- The book SELL 50 @ 50 (slot 0), BUY 100 @ 60 (slot 1) of instrument 1, as
`addOrder` leaves it right before the matching pass of the second call. -/
def sampleBook : Store :=
  afterInsert (afterInsert emptyStore OrderType.SELL 1 50 50) OrderType.BUY 1 100 60

/-- What holds of the quantity of a trade line `tr` of a matching pass that
started in store `s` and passed through the stores `trace`: some store `pre`
of the pass is followed by the two stores obtained by subtracting the trade
quantity from the buy slot and then from the sell slot, the two slots differ,
and the trade quantity is the smaller of the two quantities in `pre`, above 0. -/
def TradeQtyOK (s : Store) (trace : List Store) (tr : Trade) : Prop :=
  ∃ pre, [pre, pre.subQuantity tr.buy tr.quantity,
      (pre.subQuantity tr.buy tr.quantity).subQuantity tr.sell tr.quantity] <:+: (s :: trace) ∧
    tr.buy ≠ tr.sell ∧
    tr.quantity = min (pre.orders tr.buy).quantity (pre.orders tr.sell).quantity ∧
    0 < tr.quantity

/-- Total remaining quantity of the orders of instrument `t` and side `side`
among the slots below `orderCount`. -/
def totalQty (s : Store) (t : Int) (side : OrderType) : Int :=
  Finset.sum (Finset.range s.orderCount.toNat) fun i =>
    if (s.orders i).type = side ∧ (s.orders i).ticker = t then (s.orders i).quantity else 0

/-- Sum of the quantities of a list of trade lines. -/
def tradedQty (l : List Trade) : Int := (l.map fun tr => tr.quantity).sum

/-- Slots `i` and `j` hold a BUY and a SELL order of instrument `t` that a scan can
pair: both qualify, the buy price is above the initial `bestBuyPrice` `-1.0`,
the sell price is below the initial `bestSellPrice` `1e9`, and the buy price
is at least the sell price. -/
def VisPair (s : Store) (t : Int) (i j : Nat) : Prop :=
  qualifies s t OrderType.BUY i ∧ qualifies s t OrderType.SELL j ∧
  -1 < (s.orders i).price ∧ (s.orders j).price < 1000000000 ∧
  (s.orders j).price ≤ (s.orders i).price

/-- Instrument `t` has a pair of created orders that a scan can pair. -/
def VisCrossed (s : Store) (t : Int) : Prop :=
  ∃ i j, created s i ∧ created s j ∧ VisPair s t i j

/-- What holds of a trade line `tr` of an accepted call: `req` are the arguments of
the call, `a` its result and `id` the order id it assigned. One side of the
trade is the slot `id` filled by the call, neither side is a later slot, the
buy slot holds a BUY and the sell slot a SELL order, the price is that of the
sell slot, and slot `id` holds the submitted side and price under id `id`. -/
def NewcomerTrade (req : Request) (a : AddResult) (id : Int) (tr : Trade) : Prop :=
  ((tr.buy : Int) = id ∨ (tr.sell : Int) = id) ∧ (tr.buy : Int) ≤ id ∧ (tr.sell : Int) ≤ id ∧
  (a.store.orders tr.buy).type = OrderType.BUY ∧ (a.store.orders tr.sell).type = OrderType.SELL ∧
  tr.price = (a.store.orders tr.sell).price ∧
  (a.store.orders id.toNat).type = req.type ∧ (a.store.orders id.toNat).price = req.price ∧
  (a.store.orders id.toNat).orderId = id

/-- All trades of the call with arguments `req` and result `a` satisfy `NewcomerTrade`. -/
def NewcomerCall (req : Request) (a : AddResult) : Prop :=
  ∀ id, a.outcome = Outcome.accepted id → ∀ tr ∈ a.trades, NewcomerTrade req a id tr

/-- The price rule of the engine for the call with arguments `req` and result
`a`: every trade carries the limit price of its SELL order; when the call
submitted a BUY, the buy side is the new order and the sell side an earlier
(resting) order; when it submitted a SELL, the sell side is the new order and
the price is the submitted price. -/
def PriceRule (req : Request) (a : AddResult) : Prop :=
  ∀ id, a.outcome = Outcome.accepted id → ∀ tr ∈ a.trades,
    (a.store.orders tr.sell).type = OrderType.SELL ∧
    tr.price = (a.store.orders tr.sell).price ∧
    (req.type = OrderType.BUY → (tr.buy : Int) = id ∧ (tr.sell : Int) < id) ∧
    (req.type = OrderType.SELL → (tr.sell : Int) = id ∧ tr.price = req.price)

/-- The passive-price rule as the specification words it, for a call with result
`a` that assigned order id `id`: every trade of the call carries the limit
price of the side that is not the newly submitted order. -/
def SpecPassivePrice (a : AddResult) (id : Int) : Prop :=
  ∀ tr ∈ a.trades,
    ((tr.buy : Int) = id → tr.price = (a.store.orders tr.sell).price) ∧
    ((tr.sell : Int) = id → tr.price = (a.store.orders tr.buy).price)

/-- A run of 2^31 calls `addOrder(BUY, 0, 1, 10.0)`: the first 50000 are accepted,
the others report BookFull. -/
def wrapRequests : List Request := List.replicate 2147483648 ⟨OrderType.BUY, 0, 1, 10⟩

/-! ## The scan -/

theorem scanTo_zero (s : Store) (t : Int) : scanTo s t 0 = initBest := rfl

theorem scanTo_succ (s : Store) (t : Int) (n : Nat) :
    scanTo s t (n + 1) = scanStep s t (scanTo s t n) n := by
  simp [scanTo, List.range_succ, List.foldl_append]

theorem findBestOrders_eq_scanTo (s : Store) (t : Int) :
    findBestOrders s t = scanTo s t s.orderCount.toNat := rfl

theorem scanStep_bestBuy (s : Store) (t : Int) (b : Best) (i : Nat) :
    (scanStep s t b i).bestBuy =
      if qualifies s t OrderType.BUY i ∧ b.bestBuyPrice < (s.orders i).price then (i : Int)
      else b.bestBuy := by
  by_cases h1 : (s.orders i).active = true <;> by_cases h2 : (s.orders i).ticker = t <;>
    by_cases h3 : (s.orders i).type = OrderType.BUY <;>
    by_cases h4 : 0 < (s.orders i).quantity <;>
    by_cases h5 : b.bestBuyPrice < (s.orders i).price <;>
    by_cases h6 : (s.orders i).price < b.bestSellPrice <;>
    simp [scanStep, qualifies, h1, h2, h3, h4, h5, h6]

theorem scanStep_bestBuyPrice (s : Store) (t : Int) (b : Best) (i : Nat) :
    (scanStep s t b i).bestBuyPrice =
      if qualifies s t OrderType.BUY i ∧ b.bestBuyPrice < (s.orders i).price then
        (s.orders i).price
      else b.bestBuyPrice := by
  by_cases h1 : (s.orders i).active = true <;> by_cases h2 : (s.orders i).ticker = t <;>
    by_cases h3 : (s.orders i).type = OrderType.BUY <;>
    by_cases h4 : 0 < (s.orders i).quantity <;>
    by_cases h5 : b.bestBuyPrice < (s.orders i).price <;>
    by_cases h6 : (s.orders i).price < b.bestSellPrice <;>
    simp [scanStep, qualifies, h1, h2, h3, h4, h5, h6]

theorem type_ne_BUY {o : OrderType} : o ≠ OrderType.BUY ↔ o = OrderType.SELL := by
  cases o <;> simp

theorem scanStep_bestSell (s : Store) (t : Int) (b : Best) (i : Nat) :
    (scanStep s t b i).bestSell =
      if qualifies s t OrderType.SELL i ∧ (s.orders i).price < b.bestSellPrice then (i : Int)
      else b.bestSell := by
  by_cases h1 : (s.orders i).active = true <;> by_cases h2 : (s.orders i).ticker = t <;>
    by_cases h3 : (s.orders i).type = OrderType.BUY <;>
    by_cases h4 : 0 < (s.orders i).quantity <;>
    by_cases h5 : b.bestBuyPrice < (s.orders i).price <;>
    by_cases h6 : (s.orders i).price < b.bestSellPrice <;>
    first
      | (simp [scanStep, qualifies, h1, h2, h3, h4, h5, h6]; done)
      | simp [scanStep, qualifies, h1, h2, h3, h4, h5, h6, type_ne_BUY.mp h3]

theorem scanStep_bestSellPrice (s : Store) (t : Int) (b : Best) (i : Nat) :
    (scanStep s t b i).bestSellPrice =
      if qualifies s t OrderType.SELL i ∧ (s.orders i).price < b.bestSellPrice then
        (s.orders i).price
      else b.bestSellPrice := by
  by_cases h1 : (s.orders i).active = true <;> by_cases h2 : (s.orders i).ticker = t <;>
    by_cases h3 : (s.orders i).type = OrderType.BUY <;>
    by_cases h4 : 0 < (s.orders i).quantity <;>
    by_cases h5 : b.bestBuyPrice < (s.orders i).price <;>
    by_cases h6 : (s.orders i).price < b.bestSellPrice <;>
    first
      | (simp [scanStep, qualifies, h1, h2, h3, h4, h5, h6]; done)
      | simp [scanStep, qualifies, h1, h2, h3, h4, h5, h6, type_ne_BUY.mp h3]

theorem scanTo_buySpec (s : Store) (t : Int) (n : Nat) : BuySpec s t n (scanTo s t n) := by
  induction n with
  | zero => exact Or.inl ⟨rfl, rfl, fun i hi => absurd hi (Nat.not_lt_zero i)⟩
  | succ n ih =>
    rw [scanTo_succ]
    unfold BuySpec
    rw [scanStep_bestBuy, scanStep_bestBuyPrice]
    by_cases hq : qualifies s t OrderType.BUY n ∧ (scanTo s t n).bestBuyPrice < (s.orders n).price
    · rw [if_pos hq, if_pos hq]
      refine Or.inr ⟨n, Nat.lt_succ_self n, rfl, rfl, ?_, hq.1, ?_, ?_⟩
      · rcases ih with ⟨_, hp, _⟩ | ⟨k, _, _, hp, hk, _, _⟩
        · rw [hp] at hq; exact hq.2
        · rw [hp] at hq; exact lt_trans hk hq.2
      · intro i hi hqi
        rcases Nat.lt_succ_iff_lt_or_eq.mp hi with hlt | heq
        · rcases ih with ⟨_, hp, hall⟩ | ⟨k, _, _, hp, _, _, hall, _⟩
          · rw [hp] at hq; exact le_of_lt (lt_of_le_of_lt (hall i hlt hqi) hq.2)
          · rw [hp] at hq; exact le_of_lt (lt_of_le_of_lt (hall i hlt hqi) hq.2)
        · rw [heq]
      · intro i hlt hqi
        rcases ih with ⟨_, hp, hall⟩ | ⟨k, _, _, hp, _, _, hall, _⟩
        · rw [hp] at hq; exact lt_of_le_of_lt (hall i hlt hqi) hq.2
        · rw [hp] at hq; exact lt_of_le_of_lt (hall i hlt hqi) hq.2
    · rw [if_neg hq, if_neg hq]
      rcases ih with ⟨hb, hp, hall⟩ | ⟨k, hk, hb, hp, hgt, hqk, hall, hfirst⟩
      · refine Or.inl ⟨hb, hp, ?_⟩
        intro i hi hqi
        rcases Nat.lt_succ_iff_lt_or_eq.mp hi with hlt | heq
        · exact hall i hlt hqi
        · subst heq
          rw [hp] at hq
          exact not_lt.mp (fun h => hq ⟨hqi, h⟩)
      · refine Or.inr ⟨k, Nat.lt_succ_of_lt hk, hb, hp, hgt, hqk, ?_, hfirst⟩
        intro i hi hqi
        rcases Nat.lt_succ_iff_lt_or_eq.mp hi with hlt | heq
        · exact hall i hlt hqi
        · subst heq
          rw [hp] at hq
          exact not_lt.mp (fun h => hq ⟨hqi, h⟩)

theorem scanTo_sellSpec (s : Store) (t : Int) (n : Nat) : SellSpec s t n (scanTo s t n) := by
  induction n with
  | zero => exact Or.inl ⟨rfl, rfl, fun i hi => absurd hi (Nat.not_lt_zero i)⟩
  | succ n ih =>
    rw [scanTo_succ]
    unfold SellSpec
    rw [scanStep_bestSell, scanStep_bestSellPrice]
    by_cases hq : qualifies s t OrderType.SELL n ∧
        (s.orders n).price < (scanTo s t n).bestSellPrice
    · rw [if_pos hq, if_pos hq]
      refine Or.inr ⟨n, Nat.lt_succ_self n, rfl, rfl, ?_, hq.1, ?_, ?_⟩
      · rcases ih with ⟨_, hp, _⟩ | ⟨k, _, _, hp, hk, _, _⟩
        · rw [hp] at hq; exact hq.2
        · rw [hp] at hq; exact lt_trans hq.2 hk
      · intro i hi hqi
        rcases Nat.lt_succ_iff_lt_or_eq.mp hi with hlt | heq
        · rcases ih with ⟨_, hp, hall⟩ | ⟨k, _, _, hp, _, _, hall, _⟩
          · rw [hp] at hq; exact le_of_lt (lt_of_lt_of_le hq.2 (hall i hlt hqi))
          · rw [hp] at hq; exact le_of_lt (lt_of_lt_of_le hq.2 (hall i hlt hqi))
        · rw [heq]
      · intro i hlt hqi
        rcases ih with ⟨_, hp, hall⟩ | ⟨k, _, _, hp, _, _, hall, _⟩
        · rw [hp] at hq; exact lt_of_lt_of_le hq.2 (hall i hlt hqi)
        · rw [hp] at hq; exact lt_of_lt_of_le hq.2 (hall i hlt hqi)
    · rw [if_neg hq, if_neg hq]
      rcases ih with ⟨hb, hp, hall⟩ | ⟨k, hk, hb, hp, hgt, hqk, hall, hfirst⟩
      · refine Or.inl ⟨hb, hp, ?_⟩
        intro i hi hqi
        rcases Nat.lt_succ_iff_lt_or_eq.mp hi with hlt | heq
        · exact hall i hlt hqi
        · subst heq
          rw [hp] at hq
          exact not_lt.mp (fun h => hq ⟨hqi, h⟩)
      · refine Or.inr ⟨k, Nat.lt_succ_of_lt hk, hb, hp, hgt, hqk, ?_, hfirst⟩
        intro i hi hqi
        rcases Nat.lt_succ_iff_lt_or_eq.mp hi with hlt | heq
        · exact hall i hlt hqi
        · subst heq
          rw [hp] at hq
          exact not_lt.mp (fun h => hq ⟨hqi, h⟩)

/-- What `findBestOrders` returns, for every store and instrument: on each side
the lowest slot among the qualifying orders of best price, provided that price
lies strictly inside the initial scan prices (`-1.0` for BUY, `1e9` for SELL);
index `-1` and the initial price when no qualifying order is priced so. -/
theorem findBestOrders_spec (s : Store) (t : Int) :
    BuySpec s t s.orderCount.toNat (findBestOrders s t) ∧
    SellSpec s t s.orderCount.toNat (findBestOrders s t) :=
  ⟨scanTo_buySpec s t _, scanTo_sellSpec s t _⟩

/-! ## One iteration of the matching loop -/

theorem findBestOrders_buy {s : Store} {t : Int} (h : (findBestOrders s t).bestBuy ≠ -1) :
    (findBestOrders s t).bestBuy = ((findBestOrders s t).bestBuy.toNat : Int) ∧
    (findBestOrders s t).bestBuy.toNat < s.orderCount.toNat ∧
    qualifies s t OrderType.BUY (findBestOrders s t).bestBuy.toNat ∧
    (findBestOrders s t).bestBuyPrice = (s.orders (findBestOrders s t).bestBuy.toNat).price := by
  rcases scanTo_buySpec s t s.orderCount.toNat with ⟨hb, _, _⟩ | ⟨k, hk, hb, hp, _, hq, _, _⟩
  · exact absurd hb h
  · rw [findBestOrders_eq_scanTo, hb]
    simp only [Int.toNat_ofNat]
    exact ⟨trivial, hk, hq, hp⟩

theorem findBestOrders_sell {s : Store} {t : Int} (h : (findBestOrders s t).bestSell ≠ -1) :
    (findBestOrders s t).bestSell = ((findBestOrders s t).bestSell.toNat : Int) ∧
    (findBestOrders s t).bestSell.toNat < s.orderCount.toNat ∧
    qualifies s t OrderType.SELL (findBestOrders s t).bestSell.toNat ∧
    (findBestOrders s t).bestSellPrice = (s.orders (findBestOrders s t).bestSell.toNat).price := by
  rcases scanTo_sellSpec s t s.orderCount.toNat with ⟨hb, _, _⟩ | ⟨k, hk, hb, hp, _, hq, _, _⟩
  · exact absurd hb h
  · rw [findBestOrders_eq_scanTo, hb]
    simp only [Int.toNat_ofNat]
    exact ⟨trivial, hk, hq, hp⟩

theorem matchLoop_zero (t : Int) (s : Store) (b : Best) : matchLoop t 0 s b = none := rfl

theorem matchLoop_succ (t : Int) (fuel : Nat) (s : Store) (b : Best) :
    matchLoop t (fuel + 1) s b =
      if loopCond b then
        if (s.orders b.bestBuy.toNat).quantity ≤ 0 ∨ (s.orders b.bestSell.toNat).quantity ≤ 0 then
          some { store := s, trades := [], trace := [] }
        else
          (matchLoop t fuel (afterTrade s b) (findBestOrders (afterTrade s b) t)).map fun r =>
            { store := r.store, trades := tradeOf t s b :: r.trades,
              trace := afterBuySub s b :: afterSellSub s b :: afterBuyDeact s b ::
                afterTrade s b :: r.trace }
      else some { store := s, trades := [], trace := [] } := rfl

theorem loopCond_facts {s : Store} {t : Int} (h : loopCond (findBestOrders s t)) :
    qualifies s t OrderType.BUY (findBestOrders s t).bestBuy.toNat ∧
    qualifies s t OrderType.SELL (findBestOrders s t).bestSell.toNat ∧
    (findBestOrders s t).bestBuy.toNat < s.orderCount.toNat ∧
    (findBestOrders s t).bestSell.toNat < s.orderCount.toNat ∧
    (findBestOrders s t).bestBuy.toNat ≠ (findBestOrders s t).bestSell.toNat ∧
    (s.orders (findBestOrders s t).bestSell.toNat).price ≤
      (s.orders (findBestOrders s t).bestBuy.toNat).price := by
  obtain ⟨hb, hs, hp⟩ := h
  obtain ⟨_, hbn, hbq, hbp⟩ := findBestOrders_buy hb
  obtain ⟨_, hsn, hsq, hsp⟩ := findBestOrders_sell hs
  refine ⟨hbq, hsq, hbn, hsn, ?_, ?_⟩
  · intro heq
    have h1 := hbq.2.2.1
    have h2 := hsq.2.2.1
    rw [heq, h2] at h1
    exact absurd h1 (by decide)
  · rw [← hbp, ← hsp]; exact hp

theorem tradeQty_pos {s : Store} {b : Best}
    (hb : 0 < (s.orders b.bestBuy.toNat).quantity)
    (hs : 0 < (s.orders b.bestSell.toNat).quantity) : 0 < tradeQty s b := by
  unfold tradeQty; split_ifs <;> assumption

theorem tradeQty_le_buy (s : Store) (b : Best) :
    tradeQty s b ≤ (s.orders b.bestBuy.toNat).quantity := by
  unfold tradeQty; split_ifs with h
  · exact le_refl _
  · exact not_lt.mp h

theorem tradeQty_le_sell (s : Store) (b : Best) :
    tradeQty s b ≤ (s.orders b.bestSell.toNat).quantity := by
  unfold tradeQty; split_ifs with h
  · exact le_of_lt h
  · exact le_refl _

theorem tradeQty_eq (s : Store) (b : Best) :
    tradeQty s b = (s.orders b.bestBuy.toNat).quantity ∨
    tradeQty s b = (s.orders b.bestSell.toNat).quantity := by
  unfold tradeQty; split_ifs
  · exact Or.inl rfl
  · exact Or.inr rfl

theorem setOrder_orders (s : Store) (i : Nat) (o : Order) (j : Nat) :
    (s.setOrder i o).orders j = if j = i then o else s.orders j := rfl

theorem subQuantity_orders (s : Store) (i : Nat) (q : Int) (j : Nat) :
    (s.subQuantity i q).orders j =
      if j = i then { s.orders j with quantity := (s.orders j).quantity - q }
      else s.orders j := by
  unfold Store.subQuantity
  rw [setOrder_orders]
  by_cases h : j = i
  · rw [if_pos h, if_pos h, h]
  · rw [if_neg h, if_neg h]

theorem deactivate_orders (s : Store) (i : Nat) (j : Nat) :
    (s.deactivate i).orders j =
      if j = i then { s.orders j with active := false } else s.orders j := by
  unfold Store.deactivate
  rw [setOrder_orders]
  by_cases h : j = i
  · rw [if_pos h, if_pos h, h]
  · rw [if_neg h, if_neg h]

theorem afterBuySub_orders (s : Store) (b : Best) (j : Nat) :
    (afterBuySub s b).orders j =
      if j = b.bestBuy.toNat then
        { s.orders j with quantity := (s.orders j).quantity - tradeQty s b }
      else s.orders j := by
  unfold afterBuySub
  rw [subQuantity_orders]

theorem afterSellSub_orders (s : Store) (b : Best) (j : Nat) :
    (afterSellSub s b).orders j =
      if j = b.bestSell.toNat then
        { (afterBuySub s b).orders j with
          quantity := ((afterBuySub s b).orders j).quantity - tradeQty s b }
      else (afterBuySub s b).orders j := by
  unfold afterSellSub
  rw [subQuantity_orders]

theorem afterBuyDeact_orders (s : Store) (b : Best) (j : Nat) :
    (afterBuyDeact s b).orders j =
      if j = b.bestBuy.toNat ∧ ((afterSellSub s b).orders j).quantity ≤ 0 then
        { (afterSellSub s b).orders j with active := false }
      else (afterSellSub s b).orders j := by
  unfold afterBuyDeact
  by_cases hq : ((afterSellSub s b).orders b.bestBuy.toNat).quantity ≤ 0
  · rw [if_pos hq, deactivate_orders]
    by_cases h : j = b.bestBuy.toNat
    · subst h; rw [if_pos rfl, if_pos ⟨rfl, hq⟩]
    · rw [if_neg h, if_neg (fun hh => h hh.1)]
  · rw [if_neg hq]
    by_cases h : j = b.bestBuy.toNat
    · subst h; rw [if_neg (fun hh => hq hh.2)]
    · rw [if_neg (fun hh => h hh.1)]

theorem afterTrade_orders_step (s : Store) (b : Best) (j : Nat) :
    (afterTrade s b).orders j =
      if j = b.bestSell.toNat ∧ ((afterBuyDeact s b).orders j).quantity ≤ 0 then
        { (afterBuyDeact s b).orders j with active := false }
      else (afterBuyDeact s b).orders j := by
  unfold afterTrade
  by_cases hq : ((afterBuyDeact s b).orders b.bestSell.toNat).quantity ≤ 0
  · rw [if_pos hq, deactivate_orders]
    by_cases h : j = b.bestSell.toNat
    · subst h; rw [if_pos rfl, if_pos ⟨rfl, hq⟩]
    · rw [if_neg h, if_neg (fun hh => h hh.1)]
  · rw [if_neg hq]
    by_cases h : j = b.bestSell.toNat
    · subst h; rw [if_neg (fun hh => hq hh.2)]
    · rw [if_neg (fun hh => h hh.1)]

theorem afterTrade_orders {s : Store} {b : Best} (hne : b.bestBuy.toNat ≠ b.bestSell.toNat)
    (j : Nat) :
    (afterTrade s b).orders j =
      if j = b.bestSell.toNat ∨ j = b.bestBuy.toNat then
        { s.orders j with
          quantity := (s.orders j).quantity - tradeQty s b,
          active := if (s.orders j).quantity - tradeQty s b ≤ 0 then false
            else (s.orders j).active }
      else s.orders j := by
  have hne2 : b.bestSell.toNat ≠ b.bestBuy.toNat := fun h => hne h.symm
  rw [afterTrade_orders_step, afterBuyDeact_orders, afterSellSub_orders, afterBuySub_orders]
  by_cases hj : j = b.bestSell.toNat
  · have hjb : j ≠ b.bestBuy.toNat := fun h => hne (h.symm.trans hj)
    simp only [hj, hne2, if_true, if_false, true_and, false_and, true_or]
    by_cases hq : (s.orders b.bestSell.toNat).quantity - tradeQty s b ≤ 0
    · simp only [hq, if_true]
    · simp only [hq, if_false]
  · by_cases hj2 : j = b.bestBuy.toNat
    · simp only [hj2, hne, if_true, if_false, true_and, false_and, or_true]
      by_cases hq : (s.orders b.bestBuy.toNat).quantity - tradeQty s b ≤ 0
      · simp only [hq, if_true]
      · simp only [hq, if_false]
    · simp only [hj, hj2, if_false, false_and, false_or]

/-! ## Steps that only lower quantities and deactivate -/

theorem QStep_refl (s : Store) : QStep s s :=
  ⟨⟨rfl, rfl, fun _ => ⟨rfl, rfl, rfl, rfl⟩⟩, fun _ => ⟨le_refl _, id, id⟩⟩

theorem QStep_trans {s1 s2 s3 : Store} (h12 : QStep s1 s2) (h23 : QStep s2 s3) : QStep s1 s3 := by
  obtain ⟨⟨c1, g1, f1⟩, q1⟩ := h12
  obtain ⟨⟨c2, g2, f2⟩, q2⟩ := h23
  refine ⟨⟨c2.trans c1, g2.trans g1, fun i => ?_⟩, fun i => ?_⟩
  · obtain ⟨a1, a2, a3, a4⟩ := f1 i
    obtain ⟨b1, b2, b3, b4⟩ := f2 i
    exact ⟨b1.trans a1, b2.trans a2, b3.trans a3, b4.trans a4⟩
  · obtain ⟨a1, a2, a3⟩ := q1 i
    obtain ⟨b1, b2, b3⟩ := q2 i
    exact ⟨le_trans b1 a1, fun h => b2 (a2 h), fun h => a3 (b3 h)⟩

theorem QStep_subQuantity (s : Store) (i : Nat) (q : Int) (hq : 0 ≤ q)
    (hle : q ≤ (s.orders i).quantity) : QStep s (s.subQuantity i q) := by
  refine ⟨⟨rfl, rfl, fun j => ?_⟩, fun j => ?_⟩
  · rw [subQuantity_orders]
    by_cases h : j = i
    · rw [if_pos h]; exact ⟨rfl, rfl, rfl, rfl⟩
    · rw [if_neg h]; exact ⟨rfl, rfl, rfl, rfl⟩
  · rw [subQuantity_orders]
    by_cases h : j = i
    · rw [if_pos h]
      subst h
      refine ⟨?_, fun _ => ?_, id⟩
      · show (s.orders j).quantity - q ≤ (s.orders j).quantity
        omega
      · show 0 ≤ (s.orders j).quantity - q
        omega
    · rw [if_neg h]; exact ⟨le_refl _, id, id⟩

theorem QStep_deactivate (s : Store) (i : Nat) : QStep s (s.deactivate i) := by
  refine ⟨⟨rfl, rfl, fun j => ?_⟩, fun j => ?_⟩
  · rw [deactivate_orders]
    by_cases h : j = i
    · rw [if_pos h]; exact ⟨rfl, rfl, rfl, rfl⟩
    · rw [if_neg h]; exact ⟨rfl, rfl, rfl, rfl⟩
  · rw [deactivate_orders]
    by_cases h : j = i
    · rw [if_pos h]
      exact ⟨le_refl _, id, fun hf => absurd hf (by simp)⟩
    · rw [if_neg h]; exact ⟨le_refl _, id, id⟩

theorem QStep_afterBuySub {s : Store} {b : Best}
    (hb : 0 < (s.orders b.bestBuy.toNat).quantity)
    (hs : 0 < (s.orders b.bestSell.toNat).quantity) : QStep s (afterBuySub s b) :=
  QStep_subQuantity s _ _ (le_of_lt (tradeQty_pos hb hs)) (tradeQty_le_buy s b)

theorem QStep_afterSellSub {s : Store} {b : Best} (hne : b.bestBuy.toNat ≠ b.bestSell.toNat)
    (hb : 0 < (s.orders b.bestBuy.toNat).quantity)
    (hs : 0 < (s.orders b.bestSell.toNat).quantity) :
    QStep (afterBuySub s b) (afterSellSub s b) := by
  refine QStep_subQuantity _ _ _ (le_of_lt (tradeQty_pos hb hs)) ?_
  rw [afterBuySub_orders, if_neg (fun h => hne h.symm)]
  exact tradeQty_le_sell s b

theorem QStep_afterBuyDeact (s : Store) (b : Best) :
    QStep (afterSellSub s b) (afterBuyDeact s b) := by
  unfold afterBuyDeact
  split_ifs
  · exact QStep_deactivate _ _
  · exact QStep_refl _

theorem QStep_afterTrade (s : Store) (b : Best) :
    QStep (afterBuyDeact s b) (afterTrade s b) := by
  unfold afterTrade
  split_ifs
  · exact QStep_deactivate _ _
  · exact QStep_refl _

theorem QStep_iteration {s : Store} {b : Best} (hne : b.bestBuy.toNat ≠ b.bestSell.toNat)
    (hb : 0 < (s.orders b.bestBuy.toNat).quantity)
    (hs : 0 < (s.orders b.bestSell.toNat).quantity) : QStep s (afterTrade s b) :=
  QStep_trans (QStep_trans (QStep_afterBuySub hb hs) (QStep_afterSellSub hne hb hs))
    (QStep_trans (QStep_afterBuyDeact s b) (QStep_afterTrade s b))

/-! ## Termination of the matching loop -/

theorem qualCount_le (s : Store) (t : Int) : qualCount s t ≤ s.orderCount.toNat := by
  unfold qualCount
  calc _ ≤ (Finset.range s.orderCount.toNat).card := Finset.card_filter_le _ _
    _ = s.orderCount.toNat := Finset.card_range _

theorem qualCount_afterTrade_lt {s : Store} {t : Int} (h : loopCond (findBestOrders s t)) :
    qualCount (afterTrade s (findBestOrders s t)) t < qualCount s t := by
  obtain ⟨hbq, hsq, hbn, hsn, hne, _⟩ := loopCond_facts h
  have hstep := QStep_iteration hne hbq.2.2.2 hsq.2.2.2
  obtain ⟨⟨hc, _, hf⟩, hq⟩ := hstep
  unfold qualCount
  rw [hc]
  apply Finset.card_lt_card
  rw [Finset.ssubset_iff_of_subset]
  · rcases tradeQty_eq s (findBestOrders s t) with he | he
    · refine ⟨(findBestOrders s t).bestBuy.toNat, ?_, ?_⟩
      · simp only [Finset.mem_filter, Finset.mem_range]
        exact ⟨hbn, hbq.1, hbq.2.1, hbq.2.2.2⟩
      · simp only [Finset.mem_filter, Finset.mem_range, not_and]
        intro _ hact
        rw [afterTrade_orders hne, if_pos (Or.inr rfl)] at hact
        simp [he] at hact
    · refine ⟨(findBestOrders s t).bestSell.toNat, ?_, ?_⟩
      · simp only [Finset.mem_filter, Finset.mem_range]
        exact ⟨hsn, hsq.1, hsq.2.1, hsq.2.2.2⟩
      · simp only [Finset.mem_filter, Finset.mem_range, not_and]
        intro _ hact
        rw [afterTrade_orders hne, if_pos (Or.inl rfl)] at hact
        simp [he] at hact
  · intro i hi
    simp only [Finset.mem_filter, Finset.mem_range] at hi ⊢
    obtain ⟨hin, ha, ht, hpos⟩ := hi
    exact ⟨hin, (hq i).2.2 ha, (hf i).2.2.1 ▸ ht, lt_of_lt_of_le hpos (hq i).1⟩

theorem matchLoop_total (t : Int) : ∀ (fuel : Nat) (s : Store), qualCount s t < fuel →
    ∃ r, matchLoop t fuel s (findBestOrders s t) = some r := by
  intro fuel
  induction fuel with
  | zero => intro s h; exact absurd h (Nat.not_lt_zero _)
  | succ fuel ih =>
    intro s h
    rw [matchLoop_succ]
    by_cases hc : loopCond (findBestOrders s t)
    · rw [if_pos hc]
      obtain ⟨hbq, hsq, _⟩ := loopCond_facts hc
      rw [if_neg (by
        intro hor
        rcases hor with h1 | h1
        · exact absurd hbq.2.2.2 (not_lt.mpr h1)
        · exact absurd hsq.2.2.2 (not_lt.mpr h1))]
      have hlt := qualCount_afterTrade_lt hc
      obtain ⟨r, hr⟩ := ih (afterTrade s (findBestOrders s t)) (by omega)
      rw [hr]
      exact ⟨_, rfl⟩
    · rw [if_neg hc]
      exact ⟨_, rfl⟩

theorem matchOrder_isSome (s : Store) (t : Int) : ∃ r, matchOrder s t = some r :=
  matchLoop_total t _ s (Nat.lt_succ_of_le (qualCount_le s t))

/-- Induction over the iterations of the matching loop: a property that holds
when the loop test fails, and is carried backwards over one executed trade,
holds of every result of the loop. -/
theorem matchLoop_induct {t : Int} {P : Store → MatchResult → Prop}
    (hstop : ∀ s, ¬ loopCond (findBestOrders s t) → P s { store := s, trades := [], trace := [] })
    (hstep : ∀ s r, loopCond (findBestOrders s t) →
      P (afterTrade s (findBestOrders s t)) r →
      P s { store := r.store, trades := tradeOf t s (findBestOrders s t) :: r.trades,
            trace := afterBuySub s (findBestOrders s t) :: afterSellSub s (findBestOrders s t) ::
              afterBuyDeact s (findBestOrders s t) :: afterTrade s (findBestOrders s t) ::
              r.trace }) :
    ∀ (fuel : Nat) (s : Store) (r : MatchResult),
      matchLoop t fuel s (findBestOrders s t) = some r → P s r := by
  intro fuel
  induction fuel with
  | zero => intro s r h; rw [matchLoop_zero] at h; exact absurd h (by simp)
  | succ fuel ih =>
    intro s r h
    rw [matchLoop_succ] at h
    by_cases hc : loopCond (findBestOrders s t)
    · rw [if_pos hc] at h
      obtain ⟨hbq, hsq, _⟩ := loopCond_facts hc
      rw [if_neg (by
        intro hor
        rcases hor with h1 | h1
        · exact absurd hbq.2.2.2 (not_lt.mpr h1)
        · exact absurd hsq.2.2.2 (not_lt.mpr h1))] at h
      rw [Option.map_eq_some'] at h
      obtain ⟨r1, hr1, hr⟩ := h
      rw [← hr]
      exact hstep s r1 hc (ih _ r1 hr1)
    · rw [if_neg hc] at h
      rw [← Option.some.inj h]
      exact hstop s hc

/-! ## What the matching loop does -/

theorem SameFrame_refl (s : Store) : SameFrame s s := (QStep_refl s).1

theorem SameFrame_trans {s1 s2 s3 : Store} (h12 : SameFrame s1 s2) (h23 : SameFrame s2 s3) :
    SameFrame s1 s3 := by
  obtain ⟨c1, g1, f1⟩ := h12
  obtain ⟨c2, g2, f2⟩ := h23
  refine ⟨c2.trans c1, g2.trans g1, fun i => ?_⟩
  obtain ⟨a1, a2, a3, a4⟩ := f1 i
  obtain ⟨b1, b2, b3, b4⟩ := f2 i
  exact ⟨b1.trans a1, b2.trans a2, b3.trans a3, b4.trans a4⟩

theorem TradeOK_of_afterTrade {t : Int} {s : Store} {b : Best} {l : List Store} {tr : Trade}
    (hf : SameFrame s (afterTrade s b)) (h : TradeOK t (afterTrade s b) l tr) :
    TradeOK t s (afterBuySub s b :: afterSellSub s b :: afterBuyDeact s b ::
      afterTrade s b :: l) tr := by
  obtain ⟨hc, _, hfr⟩ := hf
  obtain ⟨h1, h2, h3, h4, h5, h6, h7, h8, h9, h10, pre, post, hin, hpost, hpr⟩ := h
  rw [hc] at h3 h4
  rw [(hfr tr.buy).2.1] at h5
  rw [(hfr tr.sell).2.1] at h6
  rw [(hfr tr.buy).2.2.1] at h7
  rw [(hfr tr.sell).2.2.1] at h8
  rw [(hfr tr.sell).2.2.2] at h9
  rw [(hfr tr.buy).2.2.2] at h10
  refine ⟨h1, h2, h3, h4, h5, h6, h7, h8, h9, h10, pre, post, ?_, hpost, hpr⟩
  obtain ⟨l1, l2, hl⟩ := hin
  exact ⟨afterBuySub s b :: afterSellSub s b :: afterBuyDeact s b :: afterTrade s b :: l1, l2,
    by simp [← hl]⟩

theorem TradeOK_tradeOf {t : Int} {s : Store} (h : loopCond (findBestOrders s t))
    (l : List Store) :
    TradeOK t s (afterBuySub s (findBestOrders s t) :: afterSellSub s (findBestOrders s t) :: l)
      (tradeOf t s (findBestOrders s t)) := by
  obtain ⟨hbq, hsq, hbn, hsn, hne, hp⟩ := loopCond_facts h
  have hfr := QStep_trans (QStep_afterBuySub hbq.2.2.2 hsq.2.2.2)
    (QStep_afterSellSub hne hbq.2.2.2 hsq.2.2.2)
  have hprice : (tradeOf t s (findBestOrders s t)).price =
      (s.orders (findBestOrders s t).bestSell.toNat).price := (hfr.1.2.2 _).2.2.2
  refine ⟨rfl, tradeQty_pos hbq.2.2.2 hsq.2.2.2, hbn, hsn, hbq.2.2.1, hsq.2.2.1, hbq.2.1,
    hsq.2.1, hprice, ?_, afterBuySub s (findBestOrders s t),
    afterSellSub s (findBestOrders s t), ⟨[], l, rfl⟩, rfl, rfl⟩
  rw [hprice]
  exact hp

theorem matchLoop_spec (t : Int) : ∀ (fuel : Nat) (s : Store) (r : MatchResult),
    matchLoop t fuel s (findBestOrders s t) = some r →
      List.Chain QStep s r.trace ∧ QStep s r.store ∧
      r.store = (s :: r.trace).getLast (List.cons_ne_nil _ _) ∧
      r.trace.length = 4 * r.trades.length ∧
      ¬ loopCond (findBestOrders r.store t) ∧
      ∀ tr ∈ r.trades, TradeOK t s r.trace tr := by
  apply matchLoop_induct
  · intro s hc
    exact ⟨List.Chain.nil, QStep_refl s, rfl, rfl, hc, fun tr h => absurd h (List.not_mem_nil tr)⟩
  · intro s r hc ih
    obtain ⟨hchain, hq, hlast, hlen, hexit, htr⟩ := ih
    obtain ⟨hbq, hsq, _, _, hne, _⟩ := loopCond_facts hc
    refine ⟨?_, QStep_trans (QStep_iteration hne hbq.2.2.2 hsq.2.2.2) hq, ?_, ?_, hexit, ?_⟩
    · exact List.Chain.cons (QStep_afterBuySub hbq.2.2.2 hsq.2.2.2)
        (List.Chain.cons (QStep_afterSellSub hne hbq.2.2.2 hsq.2.2.2)
          (List.Chain.cons (QStep_afterBuyDeact s _)
            (List.Chain.cons (QStep_afterTrade s _) hchain)))
    · rw [hlast]
      simp only [List.getLast_cons (List.cons_ne_nil _ _)]
    · simp only [List.length_cons, hlen]
      omega
    · intro tr hmem
      rcases List.mem_cons.mp hmem with heq | hin
      · rw [heq]
        exact TradeOK_tradeOf hc _
      · exact TradeOK_of_afterTrade (QStep_iteration hne hbq.2.2.2 hsq.2.2.2).1 (htr tr hin)

/-! ## One call of `addOrder` -/

theorem wrap32_of_range {x : Int} (h0 : 0 ≤ x) (h1 : x < 2147483648) : wrap32 x = x := by
  unfold wrap32; omega

theorem addOrder_full {s : Store} (h : s.orderCount ≥ MAX_ORDERS) (ty : OrderType)
    (t q : Int) (p : ℚ) :
    addOrder s ty t q p =
      some { store := { s with orderCount := wrap32 (s.orderCount + 1) },
             outcome := Outcome.BookFull, events := [Event.bookFull], trades := [],
             trace := [] } := by
  unfold addOrder
  simp only [if_pos h]

theorem addOrder_neg {s : Store} (h : s.orderCount < 0) (ty : OrderType)
    (t q : Int) (p : ℚ) : addOrder s ty t q p = none := by
  unfold addOrder
  have h2 : ¬ s.orderCount ≥ MAX_ORDERS := by unfold MAX_ORDERS; omega
  simp only [if_neg h2, if_pos h]

theorem addOrder_ok {s : Store} (h0 : 0 ≤ s.orderCount) (h1 : s.orderCount < MAX_ORDERS)
    (ty : OrderType) (t q : Int) (p : ℚ) :
    addOrder s ty t q p =
      (matchOrder (afterInsert s ty t q p) t).map fun r =>
        { store := r.store, outcome := Outcome.accepted s.globalOrderId,
          events := Event.added s.globalOrderId ty t q p ::
            r.trades.map (fun tr => Event.matched tr.ticker tr.quantity tr.price),
          trades := r.trades, trace := afterInsert s ty t q p :: r.trace } := by
  unfold addOrder
  have h2 : ¬ s.orderCount ≥ MAX_ORDERS := not_le.mpr h1
  have h3 : ¬ s.orderCount < 0 := not_lt.mpr h0
  simp only [if_neg h2, if_neg h3]
  rfl

theorem matchLoop_settled (t : Int) : ∀ (fuel : Nat) (s : Store) (r : MatchResult),
    matchLoop t fuel s (findBestOrders s t) = some r → Settled s → Settled r.store := by
  apply matchLoop_induct
  · intro s _ h; exact h
  · intro s r hc ih hs
    apply ih
    obtain ⟨_, _, _, _, hne, _⟩ := loopCond_facts hc
    intro i hi
    rw [afterTrade_orders hne] at hi ⊢
    by_cases hj : i = (findBestOrders s t).bestSell.toNat ∨ i = (findBestOrders s t).bestBuy.toNat
    · rw [if_pos hj] at hi ⊢
      simp only at hi ⊢
      rw [if_pos hi]
    · rw [if_neg hj] at hi ⊢
      exact hs i hi

theorem order_ext {o1 o2 : Order} (h1 : o1.orderId = o2.orderId) (h2 : o1.type = o2.type)
    (h3 : o1.ticker = o2.ticker) (h4 : o1.quantity = o2.quantity) (h5 : o1.price = o2.price)
    (h6 : o1.active = o2.active) : o1 = o2 := by
  cases o1; cases o2; simp_all

theorem IdInv_of_QStep {n : Nat} {s1 s2 : Store} (h : IdInv n s1) (hq : QStep s1 s2) :
    IdInv n s2 := by
  obtain ⟨hn, hc, hg, hid⟩ := h
  obtain ⟨⟨c, g, f⟩, _⟩ := hq
  refine ⟨hn, c.trans hc, g.trans hg, fun i hi => ?_⟩
  rw [(f i).1]; exact hid i hi

theorem Inv_of_QStep {n : Nat} {s1 s2 : Store} (h : Inv n s1) (hq : QStep s1 s2)
    (hs : Settled s2) : Inv n s2 := by
  obtain ⟨hid, hz, hnn, _⟩ := h
  refine ⟨IdInv_of_QStep hid hq, fun i hi => ?_, fun i => (hq.2 i).2.1 (hnn i), hs⟩
  obtain ⟨⟨c, g, f⟩, q⟩ := hq
  have hzi := hz i hi
  obtain ⟨f1, f2, f3, f4⟩ := f i
  obtain ⟨q1, q2, q3⟩ := q i
  rw [hzi] at f1 f2 f3 f4 q1 q2 q3
  apply order_ext f1 f2 f3 _ f4
  · cases hact : (s2.orders i).active
    · rfl
    · exact absurd (q3 hact) (by simp [zeroOrder])
  · have h0 : (0 : Int) ≤ zeroOrder.quantity := by simp [zeroOrder]
    have := q2 h0
    have hle : (s2.orders i).quantity ≤ 0 := by simpa [zeroOrder] using q1
    show (s2.orders i).quantity = 0
    omega

theorem IdInv_orderCount {n : Nat} {s : Store} (h : IdInv n s) (hn : n < 2147483648) :
    s.orderCount = (n : Int) := by
  rw [h.2.1]; exact wrap32_of_range (Int.natCast_nonneg n) (by omega)

theorem afterInsert_orders (s : Store) (ty : OrderType) (t q : Int) (p : ℚ) (j : Nat) :
    (afterInsert s ty t q p).orders j =
      if j = s.orderCount.toNat then
        { orderId := s.globalOrderId, type := ty, ticker := t, quantity := q, price := p,
          active := true }
      else s.orders j := rfl

theorem IdInv_afterInsert {n : Nat} {s : Store} (h : IdInv n s) (hn : n < 50000)
    (ty : OrderType) (t q : Int) (p : ℚ) :
    IdInv (n + 1) (afterInsert s ty t q p) := by
  have hc : s.orderCount = (n : Int) := IdInv_orderCount h (by omega)
  obtain ⟨_, _, hg, hid⟩ := h
  have hmin : min (n : Int) 50000 = n := min_eq_left (by omega)
  have hmin1 : min ((n + 1 : Nat) : Int) 50000 = (n : Int) + 1 := by
    rw [min_eq_left (by omega)]; omega
  rw [hmin] at hg hid
  have htn : s.orderCount.toNat = n := by rw [hc]; exact Int.toNat_ofNat n
  refine ⟨by omega, ?_, ?_, fun i hi => ?_⟩
  · show wrap32 (s.orderCount + 1) = wrap32 ((n + 1 : Nat) : Int)
    rw [hc]; rfl
  · show wrap32 (s.globalOrderId + 1) = min ((n + 1 : Nat) : Int) 50000
    rw [hmin1, hg]
    exact wrap32_of_range (by omega) (by omega)
  · rw [hmin1] at hi
    rw [afterInsert_orders, htn]
    by_cases hj : i = n
    · rw [if_pos hj, hj]; exact hg
    · rw [if_neg hj]; exact hid i (by omega)

theorem Inv_afterInsert {n : Nat} {s : Store} (h : Inv n s) (hn : n < 50000)
    (ty : OrderType) (t q : Int) (p : ℚ) (hq : 0 < q) :
    Inv (n + 1) (afterInsert s ty t q p) := by
  have hc : s.orderCount = (n : Int) := IdInv_orderCount h.1 (by omega)
  obtain ⟨hid, hz, hnn, hs⟩ := h
  have hmin : min (n : Int) 50000 = n := min_eq_left (by omega)
  have hmin1 : min ((n + 1 : Nat) : Int) 50000 = (n : Int) + 1 := by
    rw [min_eq_left (by omega)]; omega
  rw [hmin] at hz
  have htn : s.orderCount.toNat = n := by rw [hc]; exact Int.toNat_ofNat n
  refine ⟨IdInv_afterInsert hid hn ty t q p, fun i hi => ?_, fun i => ?_, fun i hi => ?_⟩
  · rw [hmin1] at hi
    rw [afterInsert_orders, htn, if_neg (by omega)]
    exact hz i (by omega)
  · rw [afterInsert_orders]
    by_cases hj : i = s.orderCount.toNat
    · rw [if_pos hj]; exact le_of_lt hq
    · rw [if_neg hj]; exact hnn i
  · rw [afterInsert_orders] at hi ⊢
    by_cases hj : i = s.orderCount.toNat
    · rw [if_pos hj] at hi
      exact absurd hq (not_lt.mpr hi)
    · rw [if_neg hj] at hi ⊢
      exact hs i hi

theorem addOrder_defined {n : Nat} {s : Store} (h : IdInv n s) (hn : n < 2147483648)
    (ty : OrderType) (t q : Int) (p : ℚ) : ∃ a, addOrder s ty t q p = some a := by
  have hc : s.orderCount = (n : Int) := IdInv_orderCount h hn
  by_cases hfull : s.orderCount ≥ MAX_ORDERS
  · exact ⟨_, addOrder_full hfull ty t q p⟩
  · rw [addOrder_ok (by omega) (not_le.mp hfull)]
    obtain ⟨r, hr⟩ := matchOrder_isSome (afterInsert s ty t q p) t
    rw [hr]
    exact ⟨_, rfl⟩

/-- Effect of one `addOrder` call on the store reached after `n` calls: the call
is the `n+1`-th, it either reports BookFull and leaves every slot alone, or
takes id `n`, fills slot `n` and runs a matching pass. -/
theorem addOrder_step {n : Nat} {s : Store} {ty : OrderType} {t q : Int} {p : ℚ}
    {a : AddResult} (h : IdInv n s) (ha : addOrder s ty t q p = some a) :
    n < 2147483648 ∧ IdInv (n + 1) a.store ∧
    ((a.outcome = Outcome.BookFull ∧ 50000 ≤ n ∧ a.trace = [] ∧ a.trades = [] ∧
        a.store.orders = s.orders) ∨
     (a.outcome = Outcome.accepted n ∧ n < 50000 ∧
        ∃ r, matchOrder (afterInsert s ty t q p) t = some r ∧ a.store = r.store ∧
          a.trace = afterInsert s ty t q p :: r.trace ∧ a.trades = r.trades)) := by
  have hn : n < 2147483648 := by
    by_contra hcon
    have h2 : n = 2147483648 := by have := h.1; omega
    have hc : s.orderCount < 0 := by rw [h.2.1, h2]; decide
    rw [addOrder_neg hc] at ha
    exact absurd ha (by simp)
  have hc : s.orderCount = (n : Int) := IdInv_orderCount h hn
  refine ⟨hn, ?_⟩
  by_cases hfull : s.orderCount ≥ MAX_ORDERS
  · rw [addOrder_full hfull] at ha
    have hn5 : 50000 ≤ n := by unfold MAX_ORDERS at hfull; omega
    rw [← Option.some.inj ha]
    refine ⟨?_, Or.inl ⟨rfl, hn5, rfl, rfl, rfl⟩⟩
    obtain ⟨_, _, hg, hid⟩ := h
    have e1 : min (n : Int) 50000 = 50000 := min_eq_right (by omega)
    have e2 : min ((n + 1 : Nat) : Int) 50000 = 50000 := min_eq_right (by omega)
    rw [e1] at hg hid
    refine ⟨by omega, ?_, ?_, ?_⟩
    · show wrap32 (s.orderCount + 1) = wrap32 ((n + 1 : Nat) : Int)
      rw [hc]; rfl
    · rw [e2]; exact hg
    · rw [e2]; exact hid
  · have hlt : s.orderCount < MAX_ORDERS := not_le.mp hfull
    have hn5 : n < 50000 := by unfold MAX_ORDERS at hlt; omega
    rw [addOrder_ok (by omega) hlt, Option.map_eq_some'] at ha
    obtain ⟨r, hr, hra⟩ := ha
    have hg : s.globalOrderId = (n : Int) := by
      rw [h.2.2.1]; exact min_eq_left (by omega)
    have hinv := IdInv_afterInsert h hn5 ty t q p
    obtain ⟨_, hqs, _, _, _, _⟩ := matchLoop_spec t _ _ r hr
    rw [← hra]
    refine ⟨IdInv_of_QStep hinv hqs, Or.inr ⟨?_, hn5, r, hr, rfl, rfl, rfl⟩⟩
    show Outcome.accepted s.globalOrderId = Outcome.accepted n
    rw [hg]

/-- With a positive quantity, the call also keeps the quantity invariant. -/
theorem addOrder_step_inv {n : Nat} {s : Store} {ty : OrderType} {t q : Int} {p : ℚ}
    {a : AddResult} (h : Inv n s) (hq : 0 < q) (ha : addOrder s ty t q p = some a) :
    Inv (n + 1) a.store := by
  obtain ⟨_, hid, hcase⟩ := addOrder_step h.1 ha
  rcases hcase with ⟨_, hn5, _, _, hord⟩ | ⟨_, hn5, r, hr, hst, _, _⟩
  · obtain ⟨_, hz, hnn, hs⟩ := h
    have e1 : min (n : Int) 50000 = 50000 := min_eq_right (by omega)
    have e2 : min ((n + 1 : Nat) : Int) 50000 = 50000 := min_eq_right (by omega)
    refine ⟨hid, ?_, ?_, ?_⟩
    · rw [e2, hord]; rw [e1] at hz; exact hz
    · rw [hord]; exact hnn
    · unfold Settled; rw [hord]; exact hs
  · have hinv := Inv_afterInsert h hn5 ty t q p hq
    obtain ⟨_, hqs, _, _, _, _⟩ := matchLoop_spec t _ _ r hr
    have hset := matchLoop_settled t _ _ r hr hinv.2.2.2
    rw [hst]
    exact Inv_of_QStep hinv hqs hset

theorem Inv_empty : Inv 0 emptyStore := by
  refine ⟨⟨by omega, by decide, by decide, fun i hi => ?_⟩, fun _ _ => rfl, fun _ => le_refl _,
    fun _ _ => rfl⟩
  have : min ((0 : Nat) : Int) 50000 = 0 := by decide
  rw [this] at hi
  omega

/-! ## Sequences of calls -/

theorem submitAll_nil (s : Store) : submitAll s [] = some [] := rfl

theorem submitAll_cons {s : Store} {r : Request} {rs : List Request} {l : List AddResult}
    (h : submitAll s (r :: rs) = some l) :
    ∃ a l1, addOrder s r.type r.ticker r.quantity r.price = some a ∧
      submitAll a.store rs = some l1 ∧ l = a :: l1 := by
  unfold submitAll submit at h
  cases ha : addOrder s r.type r.ticker r.quantity r.price with
  | none => rw [ha] at h; exact absurd h (by simp)
  | some a =>
    rw [ha] at h
    simp only [Option.map_eq_some'] at h
    obtain ⟨l1, hl1, hl⟩ := h
    exact ⟨a, l1, rfl, hl1, hl.symm⟩

theorem submitAll_defined : ∀ (reqs : List Request) (n : Nat) (s : Store), IdInv n s →
    n + reqs.length ≤ 2147483648 → ∃ l, submitAll s reqs = some l := by
  intro reqs
  induction reqs with
  | nil => intro n s _ _; exact ⟨[], rfl⟩
  | cons r rs ih =>
    intro n s h hlen
    simp only [List.length_cons] at hlen
    obtain ⟨a, ha⟩ := addOrder_defined h (by omega) r.type r.ticker r.quantity r.price
    obtain ⟨_, hinv, _⟩ := addOrder_step h ha
    obtain ⟨l1, hl1⟩ := ih (n + 1) a.store hinv (by omega)
    refine ⟨a :: l1, ?_⟩
    unfold submitAll submit
    rw [ha]
    simp only [hl1, Option.map_some']

theorem submitAll_idInv : ∀ (reqs : List Request) (n : Nat) (s : Store) (l : List AddResult),
    IdInv n s → submitAll s reqs = some l →
    IdInv (n + reqs.length) (finalStore s l) ∧ l.length = reqs.length := by
  intro reqs
  induction reqs with
  | nil =>
    intro n s l h hl
    rw [submitAll_nil] at hl
    rw [← Option.some.inj hl]
    exact ⟨h, rfl⟩
  | cons r rs ih =>
    intro n s l h hl
    obtain ⟨a, l1, ha, hl1, rfl⟩ := submitAll_cons hl
    obtain ⟨_, hinv, _⟩ := addOrder_step h ha
    obtain ⟨h1, h2⟩ := ih (n + 1) a.store l1 hinv hl1
    refine ⟨?_, by simp [h2]⟩
    have e : n + (r :: rs).length = n + 1 + rs.length := by simp only [List.length_cons]; omega
    rw [e]
    exact h1

theorem submitAll_inv : ∀ (reqs : List Request) (n : Nat) (s : Store) (l : List AddResult),
    Inv n s → (∀ r ∈ reqs, 0 < r.quantity) → submitAll s reqs = some l →
    Inv (n + reqs.length) (finalStore s l) := by
  intro reqs
  induction reqs with
  | nil =>
    intro n s l h _ hl
    rw [submitAll_nil] at hl
    rw [← Option.some.inj hl]
    exact h
  | cons r rs ih =>
    intro n s l h hpos hl
    obtain ⟨a, l1, ha, hl1, rfl⟩ := submitAll_cons hl
    have hinv := addOrder_step_inv h (hpos r (List.mem_cons_self r rs)) ha
    have h1 := ih (n + 1) a.store l1 hinv (fun x hx => hpos x (List.mem_cons_of_mem r hx)) hl1
    have e : n + (r :: rs).length = n + 1 + rs.length := by simp only [List.length_cons]; omega
    rw [e]
    exact h1

theorem created_lt {n : Nat} {s : Store} (h : IdInv n s) {i : Nat} (hc : created s i) :
    (i : Int) < min (n : Int) 50000 := by
  obtain ⟨hn, hcount, _, _⟩ := h
  obtain ⟨h1, h2⟩ := hc
  unfold MAX_ORDERS at h2
  rw [hcount] at h1
  by_cases hlt : n < 2147483648
  · rw [wrap32_of_range (Int.natCast_nonneg n) (by omega)] at h1
    exact lt_min h1 h2
  · have h3 : n = 2147483648 := by omega
    rw [h3] at h1
    have h4 : wrap32 ((2147483648 : Nat) : Int) = -2147483648 := by decide
    rw [h4] at h1
    omega

theorem submitAll_ids : ∀ (reqs : List Request) (n : Nat) (s : Store) (l : List AddResult),
    IdInv n s → submitAll s reqs = some l →
    (∀ a ∈ l, ∀ id, a.outcome = Outcome.accepted id → (n : Int) ≤ id) ∧
    List.Pairwise IdBefore l := by
  intro reqs
  induction reqs with
  | nil =>
    intro n s l _ hl
    rw [submitAll_nil] at hl
    rw [← Option.some.inj hl]
    exact ⟨fun a ha => absurd ha (List.not_mem_nil a), List.Pairwise.nil⟩
  | cons r rs ih =>
    intro n s l h hl
    obtain ⟨a, l1, ha, hl1, rfl⟩ := submitAll_cons hl
    obtain ⟨_, hinv, hcase⟩ := addOrder_step h ha
    obtain ⟨hge, hpw⟩ := ih (n + 1) a.store l1 hinv hl1
    have hhead : ∀ id, a.outcome = Outcome.accepted id → id = (n : Int) := by
      intro id hid
      rcases hcase with ⟨hb, _⟩ | ⟨hacc, _⟩
      · rw [hb] at hid; exact absurd hid (by simp)
      · rw [hacc] at hid; exact (Outcome.accepted.inj hid).symm
    refine ⟨fun a1 ha1 id hid => ?_, List.Pairwise.cons (fun a2 ha2 id1 id2 h1 h2 => ?_) hpw⟩
    · rcases List.mem_cons.mp ha1 with heq | hin
      · rw [heq] at hid; rw [hhead id hid]
      · have := hge a1 hin id hid
        push_cast at this
        omega
    · rw [hhead id1 h1]
      have := hge a2 ha2 id2 h2
      push_cast at this
      omega

/-! ## Quantities and activity along a run -/

theorem matchLoop_chain_store (t : Int) : ∀ (fuel : Nat) (s : Store) (r : MatchResult),
    matchLoop t fuel s (findBestOrders s t) = some r →
      List.Chain QStep s (r.trace ++ [r.store]) := by
  apply matchLoop_induct
  · intro s _
    exact List.Chain.cons (QStep_refl s) List.Chain.nil
  · intro s r hc ih
    obtain ⟨hbq, hsq, _, _, hne, _⟩ := loopCond_facts hc
    exact List.Chain.cons (QStep_afterBuySub hbq.2.2.2 hsq.2.2.2)
      (List.Chain.cons (QStep_afterSellSub hne hbq.2.2.2 hsq.2.2.2)
        (List.Chain.cons (QStep_afterBuyDeact s _)
          (List.Chain.cons (QStep_afterTrade s _) ih)))

theorem chain_QStep_nonneg : ∀ (l : List Store) (s : Store), List.Chain QStep s l →
    (∀ i, 0 ≤ (s.orders i).quantity) → ∀ s1 ∈ l, ∀ i, 0 ≤ (s1.orders i).quantity := by
  intro l
  induction l with
  | nil => intro s _ _ s1 h1; exact absurd h1 (List.not_mem_nil s1)
  | cons x xs ih =>
    intro s hch hnn s1 h1
    rw [List.chain_cons] at hch
    have hx : ∀ i, 0 ≤ (x.orders i).quantity := fun i => (hch.1.2 i).2.1 (hnn i)
    rcases List.mem_cons.mp h1 with heq | hin
    · rw [heq]; exact hx
    · exact ih x hch.2 hx s1 hin

theorem Mono_of_QStep {s1 s2 : Store} (h : QStep s1 s2) : Mono s1 s2 :=
  fun i _ => (h.2 i).1

theorem afterInsert_orders_created {s : Store} {i : Nat} (hc : created s i) (ty : OrderType)
    (t q : Int) (p : ℚ) : (afterInsert s ty t q p).orders i = s.orders i := by
  rw [afterInsert_orders, if_neg]
  have := hc.1
  omega

/-- States passed through by one call with positive quantity from a store that
satisfies the invariant: no quantity is negative, none of a created order rises. -/
theorem addOrder_trace {n : Nat} {s : Store} {ty : OrderType} {t q : Int} {p : ℚ}
    {a : AddResult} (h : Inv n s) (hq : 0 < q) (ha : addOrder s ty t q p = some a) :
    List.Chain Mono s (a.trace ++ [a.store]) ∧
    ∀ s1 ∈ a.trace ++ [a.store], ∀ i, 0 ≤ (s1.orders i).quantity := by
  obtain ⟨_, _, hcase⟩ := addOrder_step h.1 ha
  rcases hcase with ⟨_, _, htr, _, hord⟩ | ⟨_, hn5, r, hr, hst, htr, _⟩
  · rw [htr]
    refine ⟨List.Chain.cons (fun i _ => ?_) List.Chain.nil, fun s1 h1 i => ?_⟩
    · rw [hord]
    · simp only [List.nil_append, List.mem_singleton] at h1
      rw [h1, hord]; exact h.2.2.1 i
  · rw [htr, hst]
    have hinv := Inv_afterInsert h hn5 ty t q p hq
    have hch := matchLoop_chain_store t _ _ r hr
    refine ⟨List.Chain.cons (fun i hc => ?_) (hch.imp (fun _ _ hq1 => Mono_of_QStep hq1)),
      fun s1 h1 i => ?_⟩
    · rw [afterInsert_orders_created hc]
    · rcases List.mem_cons.mp h1 with heq | hin
      · rw [heq]; exact hinv.2.2.1 i
      · exact chain_QStep_nonneg _ _ hch hinv.2.2.1 s1 hin i

theorem submitAll_trace : ∀ (reqs : List Request) (n : Nat) (s : Store) (l : List AddResult),
    Inv n s → (∀ r ∈ reqs, 0 < r.quantity) → submitAll s reqs = some l →
    List.Chain Mono s (statesOf l) ∧ ∀ s1 ∈ statesOf l, ∀ i, 0 ≤ (s1.orders i).quantity := by
  intro reqs
  induction reqs with
  | nil =>
    intro n s l _ _ hl
    rw [submitAll_nil] at hl
    rw [← Option.some.inj hl]
    exact ⟨List.Chain.nil, fun s1 h1 => absurd h1 (List.not_mem_nil s1)⟩
  | cons r rs ih =>
    intro n s l h hpos hl
    obtain ⟨a, l1, ha, hl1, rfl⟩ := submitAll_cons hl
    have hq := hpos r (List.mem_cons_self r rs)
    have hinv := addOrder_step_inv h hq ha
    obtain ⟨hch, hnn⟩ := addOrder_trace h hq ha
    obtain ⟨ihch, ihnn⟩ := ih (n + 1) a.store l1 hinv
      (fun x hx => hpos x (List.mem_cons_of_mem r hx)) hl1
    refine ⟨?_, fun s1 h1 i => ?_⟩
    · show List.Chain Mono s (a.trace ++ a.store :: statesOf l1)
      rw [List.chain_split]
      exact ⟨hch, ihch⟩
    · have h2 : s1 ∈ a.trace ++ a.store :: statesOf l1 := h1
      rw [List.mem_append, List.mem_cons] at h2
      rcases h2 with h3 | h3 | h3
      · exact hnn s1 (List.mem_append_left _ h3) i
      · exact hnn s1 (List.mem_append_right _ (by rw [h3]; exact List.mem_singleton_self _)) i
      · exact ihnn s1 h3 i

theorem addOrder_keeps_inactive {n : Nat} {s : Store} {ty : OrderType} {t q : Int} {p : ℚ}
    {a : AddResult} (h : IdInv n s) (ha : addOrder s ty t q p = some a) :
    ∀ i : Nat, (i : Int) < min (n : Int) 50000 → (s.orders i).active = false →
      (a.store.orders i).active = false := by
  intro i hi hact
  obtain ⟨hn, _, hcase⟩ := addOrder_step h ha
  rcases hcase with ⟨_, _, _, _, hord⟩ | ⟨_, hn5, r, hr, hst, _, _⟩
  · rw [hord]; exact hact
  · have hc : created s i := by
      refine ⟨?_, ?_⟩
      · rw [IdInv_orderCount h hn]
        exact lt_of_lt_of_le hi (min_le_left _ _)
      · exact lt_of_lt_of_le hi (min_le_right _ _)
    obtain ⟨_, hqs, _, _, _, _⟩ := matchLoop_spec t _ _ r hr
    rw [hst]
    cases hfin : (r.store.orders i).active
    · rfl
    · have := (hqs.2 i).2.2 hfin
      rw [afterInsert_orders_created hc, hact] at this
      exact absurd this (by simp)

theorem submitAll_inactive : ∀ (reqs : List Request) (n : Nat) (s : Store)
    (l : List AddResult), Inv n s → (∀ r ∈ reqs, 0 < r.quantity) → submitAll s reqs = some l →
    (∀ a ∈ l, Settled a.store) ∧
    (∀ a ∈ l, ∀ i : Nat, (i : Int) < min (n : Int) 50000 → (s.orders i).active = false →
      (a.store.orders i).active = false) ∧
    List.Pairwise StaysInactive l := by
  intro reqs
  induction reqs with
  | nil =>
    intro n s l _ _ hl
    rw [submitAll_nil] at hl
    rw [← Option.some.inj hl]
    exact ⟨fun a ha => absurd ha (List.not_mem_nil a), fun a ha => absurd ha (List.not_mem_nil a),
      List.Pairwise.nil⟩
  | cons r rs ih =>
    intro n s l h hpos hl
    obtain ⟨a, l1, ha, hl1, rfl⟩ := submitAll_cons hl
    have hq := hpos r (List.mem_cons_self r rs)
    have hinv := addOrder_step_inv h hq ha
    have hkeep := addOrder_keeps_inactive h.1 ha
    obtain ⟨ih1, ih2, ih3⟩ := ih (n + 1) a.store l1 hinv
      (fun x hx => hpos x (List.mem_cons_of_mem r hx)) hl1
    refine ⟨fun a1 h1 => ?_, fun a1 h1 i hi hact => ?_,
      List.Pairwise.cons (fun a2 h2 i hc hact => ?_) ih3⟩
    · rcases List.mem_cons.mp h1 with heq | hin
      · rw [heq]; exact hinv.2.2.2
      · exact ih1 a1 hin
    · rcases List.mem_cons.mp h1 with heq | hin
      · rw [heq]; exact hkeep i hi hact
      · refine ih2 a1 hin i ?_ (hkeep i hi hact)
        have : min (n : Int) 50000 ≤ min ((n + 1 : Nat) : Int) 50000 :=
          min_le_min (by push_cast; omega) (le_refl _)
        omega
    · exact ih2 a2 h2 i (created_lt hinv.1 hc) hact

theorem fillRequests_length : fillRequests.length = 50000 := List.length_replicate _ _

theorem matchOrder_of_not_loopCond {s : Store} {t : Int}
    (h : ¬ loopCond (findBestOrders s t)) :
    matchOrder s t = some { store := s, trades := [], trace := [] } := by
  unfold matchOrder
  rw [matchLoop_succ, if_neg h]

theorem addOrder_of_not_loopCond {s : Store} (h0 : 0 ≤ s.orderCount)
    (h1 : s.orderCount < MAX_ORDERS) (ty : OrderType) (t q : Int) (p : ℚ)
    (h : ¬ loopCond (findBestOrders (afterInsert s ty t q p) t)) :
    addOrder s ty t q p =
      some { store := afterInsert s ty t q p, outcome := Outcome.accepted s.globalOrderId,
             events := [Event.added s.globalOrderId ty t q p], trades := [],
             trace := [afterInsert s ty t q p] } := by
  rw [addOrder_ok h0 h1, matchOrder_of_not_loopCond h]
  rfl

theorem afterInsert_buyStore {k : Nat} (hk : k < 50000) :
    afterInsert (buyStore k) OrderType.BUY 0 1 10 = buyStore (k + 1) := by
  have e1 : wrap32 ((k : Int) + 1) = ((k + 1 : Nat) : Int) := by
    rw [wrap32_of_range (by omega) (by omega)]; push_cast; rfl
  have e2 : ∀ j : Nat, (afterInsert (buyStore k) OrderType.BUY 0 1 10).orders j =
      (buyStore (k + 1)).orders j := by
    intro j
    rw [afterInsert_orders]
    show (if j = ((k : Int)).toNat then _ else (buyStore k).orders j) = _
    rw [Int.toNat_ofNat]
    unfold buyStore
    simp only
    by_cases hj : j = k
    · rw [if_pos hj, if_pos (by omega), hj]
    · rw [if_neg hj]
      by_cases hlt : j < k
      · rw [if_pos hlt, if_pos (by omega)]
      · rw [if_neg hlt, if_neg (by omega)]
  show ({ orders := (afterInsert (buyStore k) OrderType.BUY 0 1 10).orders,
          orderCount := wrap32 ((k : Int) + 1), globalOrderId := wrap32 ((k : Int) + 1) } : Store)
    = buyStore (k + 1)
  rw [e1, funext e2]
  rfl

theorem buyStore_not_loopCond (k : Nat) : ¬ loopCond (findBestOrders (buyStore k) 0) := by
  intro hc
  obtain ⟨_, hsq, _, _, _, _⟩ := loopCond_facts hc
  have hty := hsq.2.2.1
  generalize (findBestOrders (buyStore k) 0).bestSell.toNat = j at hty
  unfold buyStore at hty
  simp only at hty
  by_cases hj : j < k
  · rw [if_pos hj] at hty; exact absurd hty (by simp)
  · rw [if_neg hj] at hty; exact absurd hty (by simp [zeroOrder])

theorem submitAll_buyStore : ∀ (m k : Nat), k + m ≤ 50000 →
    ∃ l, submitAll (buyStore k) (List.replicate m ⟨OrderType.BUY, 0, 1, 10⟩) = some l ∧
      finalStore (buyStore k) l = buyStore (k + m) := by
  intro m
  induction m with
  | zero => intro k _; exact ⟨[], rfl, rfl⟩
  | succ m ih =>
    intro k hk
    have hnot : ¬ loopCond (findBestOrders (afterInsert (buyStore k) OrderType.BUY 0 1 10) 0) := by
      rw [afterInsert_buyStore (by omega)]
      exact buyStore_not_loopCond (k + 1)
    have hadd := addOrder_of_not_loopCond (s := buyStore k) (Int.natCast_nonneg k)
      (by show (k : Int) < MAX_ORDERS; unfold MAX_ORDERS; omega) OrderType.BUY 0 1 10 hnot
    obtain ⟨l1, hl1, hf1⟩ := ih (k + 1) (by omega)
    rw [afterInsert_buyStore (by omega)] at hadd
    refine ⟨{ store := buyStore (k + 1), outcome := Outcome.accepted (buyStore k).globalOrderId,
              events := [Event.added (buyStore k).globalOrderId OrderType.BUY 0 1 10],
              trades := [], trace := [buyStore (k + 1)] } :: l1, ?_, ?_⟩
    · rw [List.replicate_succ]
      unfold submitAll submit
      simp only [hadd, hl1, Option.map_some']
    · show finalStore (buyStore (k + 1)) l1 = _
      rw [hf1]
      have : k + 1 + m = k + (m + 1) := by omega
      rw [this]

theorem buyStore_zero : buyStore 0 = emptyStore := by
  unfold buyStore emptyStore
  simp

/-! ## Two-order scenarios on the empty book -/

theorem oneOrder_orderCount (ty : OrderType) (t q : Int) (p : ℚ) :
    (afterInsert emptyStore ty t q p).orderCount = 1 := by
  show wrap32 (0 + 1) = 1
  decide

theorem oneOrder_globalOrderId (ty : OrderType) (t q : Int) (p : ℚ) :
    (afterInsert emptyStore ty t q p).globalOrderId = 1 := by
  show wrap32 (0 + 1) = 1
  decide

theorem oneOrder_orders (ty : OrderType) (t q : Int) (p : ℚ) (i : Nat) :
    (afterInsert emptyStore ty t q p).orders i =
      if i = 0 then
        { orderId := 0, type := ty, ticker := t, quantity := q, price := p, active := true }
      else zeroOrder := rfl

theorem twoOrders_orderCount (s : Store) (hs : s.orderCount = 1) (ty : OrderType) (t q : Int)
    (p : ℚ) : (afterInsert s ty t q p).orderCount = 2 := by
  show wrap32 (s.orderCount + 1) = 2
  rw [hs]; decide

theorem twoOrders_orders (s : Store) (hs : s.orderCount = 1) (ty : OrderType) (t q : Int)
    (p : ℚ) (i : Nat) :
    (afterInsert s ty t q p).orders i =
      if i = 1 then
        { orderId := s.globalOrderId, type := ty, ticker := t, quantity := q, price := p,
          active := true }
      else s.orders i := by
  rw [afterInsert_orders, hs]
  rfl

/-- The scan of the book `SELL qs @ ps` (slot 0), `BUY qb @ pb` (slot 1) of one
instrument, with positive quantities, `0 < ps <= pb` and `ps < 1e9`. -/
theorem findBestOrders_sell_buy (t qs qb : Int) (ps pb : ℚ) (hqs : 0 < qs) (hqb : 0 < qb)
    (hps : 0 < ps) (hle : ps ≤ pb) (hlt : ps < 1000000000) :
    findBestOrders (afterInsert (afterInsert emptyStore OrderType.SELL t qs ps)
      OrderType.BUY t qb pb) t =
      { bestBuy := 1, bestSell := 0, bestBuyPrice := pb, bestSellPrice := ps } := by
  have hc1 := oneOrder_orderCount OrderType.SELL t qs ps
  have hg1 := oneOrder_globalOrderId OrderType.SELL t qs ps
  have hc2 := twoOrders_orderCount _ hc1 OrderType.BUY t qb pb
  have ho : ∀ i, (afterInsert (afterInsert emptyStore OrderType.SELL t qs ps)
      OrderType.BUY t qb pb).orders i =
      if i = 1 then ⟨1, OrderType.BUY, t, qb, pb, true⟩
      else if i = 0 then ⟨0, OrderType.SELL, t, qs, ps, true⟩ else zeroOrder := by
    intro i
    rw [twoOrders_orders _ hc1, oneOrder_orders, hg1]
  have e2 : (2 : Int).toNat = 2 := rfl
  have hbuy := scanTo_buySpec (afterInsert (afterInsert emptyStore OrderType.SELL t qs ps)
      OrderType.BUY t qb pb) t 2
  have hsell := scanTo_sellSpec (afterInsert (afterInsert emptyStore OrderType.SELL t qs ps)
      OrderType.BUY t qb pb) t 2
  rw [findBestOrders_eq_scanTo, hc2, e2]
  generalize scanTo (afterInsert (afterInsert emptyStore OrderType.SELL t qs ps)
      OrderType.BUY t qb pb) t 2 = b at hbuy hsell
  have hq1 : qualifies (afterInsert (afterInsert emptyStore OrderType.SELL t qs ps)
      OrderType.BUY t qb pb) t OrderType.BUY 1 := by
    unfold qualifies; rw [ho]; simp [hqb]
  have hq0 : qualifies (afterInsert (afterInsert emptyStore OrderType.SELL t qs ps)
      OrderType.BUY t qb pb) t OrderType.SELL 0 := by
    unfold qualifies; rw [ho]; simp [hqs]
  have hpb : (0 : ℚ) < pb := lt_of_lt_of_le hps hle
  obtain ⟨b1, b2, b3, b4⟩ := b
  rcases hbuy with ⟨_, _, hall⟩ | ⟨k, hk, hb, hbp, _, hqk, _, _⟩
  · have := hall 1 (by omega) hq1
    rw [ho] at this
    simp only [if_true] at this
    linarith
  · rcases hsell with ⟨_, _, hall⟩ | ⟨m, hm, hsl, hsp, _, hqm, _, _⟩
    · have := hall 0 (by omega) hq0
      rw [ho] at this
      simp only [if_neg (show (0 : Nat) ≠ 1 by omega), if_true] at this
      linarith
    · have hkt := hqk.2.2.1
      have hmt := hqm.2.2.1
      rw [ho] at hkt hmt hbp hsp
      simp only at hb hsl hbp hsp
      interval_cases k <;> interval_cases m <;> simp at hkt hmt hbp hsp
      simp [hb, hsl, hbp, hsp]

theorem matchOrder_single_trade {s : Store} {t : Int} (hc : loopCond (findBestOrders s t))
    (h2 : ¬ loopCond (findBestOrders (afterTrade s (findBestOrders s t)) t)) :
    matchOrder s t =
      some { store := afterTrade s (findBestOrders s t),
             trades := [tradeOf t s (findBestOrders s t)],
             trace := [afterBuySub s (findBestOrders s t), afterSellSub s (findBestOrders s t),
               afterBuyDeact s (findBestOrders s t), afterTrade s (findBestOrders s t)] } := by
  obtain ⟨hbq, hsq, hbn, _, _, _⟩ := loopCond_facts hc
  obtain ⟨m, hm⟩ : ∃ m, s.orderCount.toNat = m + 1 := ⟨s.orderCount.toNat - 1, by omega⟩
  unfold matchOrder
  rw [hm, matchLoop_succ, if_pos hc, if_neg, matchLoop_succ, if_neg h2]
  · rfl
  · intro hor
    rcases hor with h | h
    · exact absurd hbq.2.2.2 (not_lt.mpr h)
    · exact absurd hsq.2.2.2 (not_lt.mpr h)

theorem tradeOf_price {s : Store} {t : Int} (hc : loopCond (findBestOrders s t)) :
    (tradeOf t s (findBestOrders s t)).price =
      (s.orders (findBestOrders s t).bestSell.toNat).price := by
  obtain ⟨hbq, hsq, _, _, hne, _⟩ := loopCond_facts hc
  exact ((QStep_trans (QStep_afterBuySub hbq.2.2.2 hsq.2.2.2)
    (QStep_afterSellSub hne hbq.2.2.2 hsq.2.2.2)).1.2.2 _).2.2.2

/-- Full and partial fill for sell prices below `1e9`: on the empty book, for
positive quantities, `0 < ps <= pb` and `ps < 1e9`, SELL `qs @ ps` followed by
BUY `qb @ pb` on one instrument prints exactly one trade, of quantity
`min qs qb` at price `ps`; each order keeps its quantity minus `min qs qb` and
is inactive exactly when nothing remains. -/
theorem fill_below_1e9 (t qs qb : Int) (ps pb : ℚ) (hqs : 0 < qs) (hqb : 0 < qb)
    (hps : 0 < ps) (hle : ps ≤ pb) (hlt : ps < 1000000000) :
    ∃ a1 a2, addOrder emptyStore OrderType.SELL t qs ps = some a1 ∧
      addOrder a1.store OrderType.BUY t qb pb = some a2 ∧
      a1.trades = [] ∧
      a2.trades = [{ ticker := t, quantity := min qs qb, price := ps, buy := 1, sell := 0 }] ∧
      (a2.store.orders 0).quantity = qs - min qs qb ∧
      (a2.store.orders 1).quantity = qb - min qs qb ∧
      ((a2.store.orders 0).active = false ↔ (a2.store.orders 0).quantity = 0) ∧
      ((a2.store.orders 1).active = false ↔ (a2.store.orders 1).quantity = 0) := by
  have hc1 := oneOrder_orderCount OrderType.SELL t qs ps
  have hg1 := oneOrder_globalOrderId OrderType.SELL t qs ps
  have hb := findBestOrders_sell_buy t qs qb ps pb hqs hqb hps hle hlt
  have h1 : ¬ loopCond (findBestOrders (afterInsert emptyStore OrderType.SELL t qs ps) t) := by
    intro hc
    obtain ⟨hbq, _, hbn, _, _, _⟩ := loopCond_facts hc
    rw [hc1] at hbn
    have hty := hbq.2.2.1
    generalize (findBestOrders (afterInsert emptyStore OrderType.SELL t qs ps) t).bestBuy.toNat
      = k at hbn hty
    have e1 : (1 : Int).toNat = 1 := rfl
    rw [e1] at hbn
    interval_cases k
    rw [oneOrder_orders] at hty
    exact absurd hty (by simp)
  have hadd1 := addOrder_of_not_loopCond (s := emptyStore) (by decide) (by decide)
    OrderType.SELL t qs ps h1
  have ho : ∀ i, (afterInsert (afterInsert emptyStore OrderType.SELL t qs ps)
      OrderType.BUY t qb pb).orders i =
      if i = 1 then ⟨1, OrderType.BUY, t, qb, pb, true⟩
      else if i = 0 then ⟨0, OrderType.SELL, t, qs, ps, true⟩ else zeroOrder := by
    intro i
    rw [twoOrders_orders _ hc1, oneOrder_orders, hg1]
  generalize hs2 : afterInsert (afterInsert emptyStore OrderType.SELL t qs ps)
    OrderType.BUY t qb pb = s2 at hb ho
  have e0 : (0 : Int).toNat = 0 := rfl
  have e1 : (1 : Int).toNat = 1 := rfl
  have hcond : loopCond (findBestOrders s2 t) := by
    rw [hb]
    refine ⟨?_, ?_, hle⟩
    · show (1 : Int) ≠ -1
      decide
    · show (0 : Int) ≠ -1
      decide
  obtain ⟨_, _, _, _, hne, _⟩ := loopCond_facts hcond
  have htq : tradeQty s2 (findBestOrders s2 t) = min qs qb := by
    unfold tradeQty
    rw [hb]
    show (if (s2.orders (1 : Int).toNat).quantity < (s2.orders (0 : Int).toNat).quantity then _
      else _) = _
    rw [e0, e1, ho, ho]
    simp only [if_true, if_neg (show (0 : Nat) ≠ 1 by omega)]
    split_ifs with hlt2
    · exact (min_eq_right (le_of_lt hlt2)).symm
    · exact (min_eq_left (not_lt.mp hlt2)).symm
  have hat : ∀ i, (afterTrade s2 (findBestOrders s2 t)).orders i =
      if i = 1 then ⟨1, OrderType.BUY, t, qb - min qs qb, pb,
          if qb - min qs qb ≤ 0 then false else true⟩
      else if i = 0 then ⟨0, OrderType.SELL, t, qs - min qs qb, ps,
          if qs - min qs qb ≤ 0 then false else true⟩
      else zeroOrder := by
    intro i
    rw [afterTrade_orders hne, htq, ho, hb]
    show (if i = (0 : Int).toNat ∨ i = (1 : Int).toNat then _ else _) = _
    rw [e0, e1]
    by_cases hi1 : i = 1
    · subst hi1; simp
    · by_cases hi0 : i = 0
      · subst hi0; simp
      · simp [hi0, hi1]
  have h2 : ¬ loopCond (findBestOrders (afterTrade s2 (findBestOrders s2 t)) t) := by
    intro hc
    obtain ⟨hbq, hsq, _, _, _, _⟩ := loopCond_facts hc
    obtain ⟨_, _, hbt, hbpos⟩ := hbq
    obtain ⟨_, _, hst, hspos⟩ := hsq
    rw [hat] at hbt hbpos hst hspos
    generalize (findBestOrders (afterTrade s2 (findBestOrders s2 t)) t).bestBuy.toNat = k
      at hbt hbpos
    generalize (findBestOrders (afterTrade s2 (findBestOrders s2 t)) t).bestSell.toNat = m
      at hst hspos
    by_cases hk : k = 1
    · by_cases hm : m = 0
      · subst hk; subst hm
        simp only [if_true, if_neg (show (0 : Nat) ≠ 1 by omega)] at hbpos hspos
        rcases le_total qs qb with hmin | hmin
        · rw [min_eq_left hmin] at hspos; omega
        · rw [min_eq_right hmin] at hbpos; omega
      · by_cases hm1 : m = 1
        · subst hm1; simp at hst
        · simp [hm, hm1, zeroOrder] at hst
    · by_cases hk0 : k = 0
      · subst hk0; simp at hbt
      · simp [hk, hk0, zeroOrder] at hbpos
  have htr : tradeOf t s2 (findBestOrders s2 t) =
      { ticker := t, quantity := min qs qb, price := ps, buy := 1, sell := 0 } := by
    have hsell0 : (findBestOrders s2 t).bestSell.toNat = 0 := by rw [hb]; rfl
    have hp := tradeOf_price hcond
    rw [hsell0, ho] at hp
    simp only [if_neg (show (0 : Nat) ≠ 1 by omega), if_true] at hp
    have hq : (tradeOf t s2 (findBestOrders s2 t)).quantity = min qs qb := htq
    have hbi : (tradeOf t s2 (findBestOrders s2 t)).buy = 1 := by
      show (findBestOrders s2 t).bestBuy.toNat = 1
      rw [hb]; rfl
    have hsi : (tradeOf t s2 (findBestOrders s2 t)).sell = 0 := by
      show (findBestOrders s2 t).bestSell.toNat = 0
      rw [hb]; rfl
    have htk : (tradeOf t s2 (findBestOrders s2 t)).ticker = t := rfl
    generalize tradeOf t s2 (findBestOrders s2 t) = tr at hp hq hbi hsi htk
    cases tr
    simp_all
  have hmatch := matchOrder_single_trade hcond h2
  rw [htr] at hmatch
  have hc1b : (afterInsert emptyStore OrderType.SELL t qs ps).orderCount = 1 := hc1
  have hadd2 := addOrder_ok (s := afterInsert emptyStore OrderType.SELL t qs ps)
    (by rw [hc1b]; decide) (by rw [hc1b]; decide) OrderType.BUY t qb pb
  rw [hs2, hmatch] at hadd2
  refine ⟨_, _, hadd1, hadd2, rfl, rfl, ?_, ?_, ?_, ?_⟩
  · show ((afterTrade s2 (findBestOrders s2 t)).orders 0).quantity = _
    rw [hat]; simp
  · show ((afterTrade s2 (findBestOrders s2 t)).orders 1).quantity = _
    rw [hat]; simp
  · show ((afterTrade s2 (findBestOrders s2 t)).orders 0).active = false ↔
      ((afterTrade s2 (findBestOrders s2 t)).orders 0).quantity = 0
    rw [hat]
    simp only [if_neg (show (0 : Nat) ≠ 1 by omega), if_true]
    have := min_le_left qs qb
    constructor
    · intro hact
      by_contra hne0
      rw [if_neg (by omega)] at hact
      exact absurd hact (by simp)
    · intro h0
      rw [if_pos (by omega)]
  · show ((afterTrade s2 (findBestOrders s2 t)).orders 1).active = false ↔
      ((afterTrade s2 (findBestOrders s2 t)).orders 1).quantity = 0
    rw [hat]
    simp only [if_true]
    have := min_le_right qs qb
    constructor
    · intro hact
      by_contra hne0
      rw [if_neg (by omega)] at hact
      exact absurd hact (by simp)
    · intro h0
      rw [if_pos (by omega)]

/-! ## Crossing orders when every price lies between the initial scan prices -/

theorem not_crossed_of_exit {s : Store} {t : Int} (hs : Settled s) (hp : PricesInRange s)
    (hexit : ¬ loopCond (findBestOrders s t)) : ¬ Crossed s t := by
  rintro ⟨i, j, hci, hcj, hai, hti, hki, haj, htj, hkj, hge⟩
  have hin : i < s.orderCount.toNat := by have := hci.1; omega
  have hjn : j < s.orderCount.toNat := by have := hcj.1; omega
  have hqi : qualifies s t OrderType.BUY i := by
    refine ⟨hai, hki, hti, ?_⟩
    by_contra hneg
    have := hs i (not_lt.mp hneg)
    rw [hai] at this
    exact absurd this (by simp)
  have hqj : qualifies s t OrderType.SELL j := by
    refine ⟨haj, hkj, htj, ?_⟩
    by_contra hneg
    have := hs j (not_lt.mp hneg)
    rw [haj] at this
    exact absurd this (by simp)
  apply hexit
  rw [findBestOrders_eq_scanTo]
  rcases scanTo_buySpec s t s.orderCount.toNat with ⟨_, _, hall⟩ | ⟨k, _, hb, hbp, _, _, hall, _⟩
  · exact absurd (hall i hin hqi) (not_le.mpr (hp i).1)
  · rcases scanTo_sellSpec s t s.orderCount.toNat with
      ⟨_, _, hall2⟩ | ⟨m, _, hsl, hsp, _, _, hall2, _⟩
    · exact absurd (hall2 j hjn hqj) (not_le.mpr (hp j).2)
    · refine ⟨?_, ?_, ?_⟩
      · rw [hb]; omega
      · rw [hsl]; omega
      · rw [hbp, hsp]
        exact le_trans (hall2 j hjn hqj) (le_trans hge (hall i hin hqi))

theorem matchLoop_other (t : Int) : ∀ (fuel : Nat) (s : Store) (r : MatchResult),
    matchLoop t fuel s (findBestOrders s t) = some r →
      ∀ i, (s.orders i).ticker ≠ t → r.store.orders i = s.orders i := by
  apply matchLoop_induct
  · intro s _ i _; rfl
  · intro s r hc ih i hi
    obtain ⟨hbq, hsq, _, _, hne, _⟩ := loopCond_facts hc
    have hsame : (afterTrade s (findBestOrders s t)).orders i = s.orders i := by
      rw [afterTrade_orders hne, if_neg]
      rintro (h | h)
      · rw [h] at hi; exact hi hsq.2.1
      · rw [h] at hi; exact hi hbq.2.1
    show r.store.orders i = s.orders i
    rw [ih i (by rw [hsame]; exact hi), hsame]

theorem PricesInRange_of_SameFrame {s1 s2 : Store} (h : SameFrame s1 s2)
    (hp : PricesInRange s1) : PricesInRange s2 := by
  intro i
  rw [(h.2.2 i).2.2.2]
  exact hp i

theorem PricesInRange_afterInsert {s : Store} (hp : PricesInRange s) (ty : OrderType)
    (t q : Int) {p : ℚ} (h0 : -1 < p) (h1 : p < 1000000000) :
    PricesInRange (afterInsert s ty t q p) := by
  intro i
  rw [afterInsert_orders]
  by_cases hi : i = s.orderCount.toNat
  · rw [if_pos hi]; exact ⟨h0, h1⟩
  · rw [if_neg hi]; exact hp i

/-- One call with positive quantity and a price between `-1.0` and `1e9`, from a
store in which no instrument is crossed, leaves no instrument crossed. -/
theorem addOrder_clear {n : Nat} {s : Store} {ty : OrderType} {t q : Int} {p : ℚ}
    {a : AddResult} (h : Inv n s) (hp : PricesInRange s) (hclear : ∀ u, ¬ Crossed s u)
    (hq : 0 < q) (h0 : -1 < p) (h1 : p < 1000000000) (ha : addOrder s ty t q p = some a) :
    PricesInRange a.store ∧ ∀ u, ¬ Crossed a.store u := by
  have hinv := addOrder_step_inv h hq ha
  obtain ⟨hn, _, hcase⟩ := addOrder_step h.1 ha
  have hcount := IdInv_orderCount h.1 hn
  rcases hcase with ⟨_, hn5, _, _, hord⟩ | ⟨_, hn5, r, hr, hst, _, _⟩
  · refine ⟨fun i => by rw [hord]; exact hp i, fun u hcr => hclear u ?_⟩
    obtain ⟨i, j, hci, hcj, hrest⟩ := hcr
    rw [hord] at hrest
    refine ⟨i, j, ⟨?_, hci.2⟩, ⟨?_, hcj.2⟩, hrest⟩
    · have := hci.2; unfold MAX_ORDERS at this; omega
    · have := hcj.2; unfold MAX_ORDERS at this; omega
  · obtain ⟨_, hqs, _, _, hexit, _⟩ := matchLoop_spec t _ _ r hr
    have hother := matchLoop_other t _ _ r hr
    have hpr : PricesInRange r.store :=
      PricesInRange_of_SameFrame hqs.1 (PricesInRange_afterInsert hp ty t q h0 h1)
    rw [hst]
    refine ⟨hpr, fun u hcr => ?_⟩
    by_cases hu : u = t
    · rw [hu] at hcr
      rw [hst] at hinv
      exact not_crossed_of_exit hinv.2.2.2 hpr hexit hcr
    · apply hclear u
      have hc1 : r.store.orderCount = (n : Int) + 1 := by
        rw [hqs.1.1]
        show wrap32 (s.orderCount + 1) = _
        rw [hcount]
        exact wrap32_of_range (by omega) (by omega)
      have hback : ∀ i, created r.store i → (r.store.orders i).ticker = u →
          created s i ∧ r.store.orders i = s.orders i := by
        intro i hci hti
        have htk : ((afterInsert s ty t q p).orders i).ticker = u := by
          rw [← (hqs.1.2.2 i).2.2.1]; exact hti
        have hne : i ≠ s.orderCount.toNat := by
          intro heq
          rw [afterInsert_orders, if_pos heq] at htk
          exact hu htk.symm
        have hcs : created s i := by
          refine ⟨?_, hci.2⟩
          have := hci.1
          rw [hc1] at this
          rw [hcount] at hne ⊢
          rw [Int.toNat_ofNat] at hne
          omega
        refine ⟨hcs, ?_⟩
        rw [hother i (by rw [htk]; exact hu), afterInsert_orders_created hcs]
      obtain ⟨i, j, hci, hcj, hai, hti, hki, haj, htj, hkj, hge⟩ := hcr
      obtain ⟨hci2, hei⟩ := hback i hci hki
      obtain ⟨hcj2, hej⟩ := hback j hcj hkj
      rw [hei] at hai hti hki hge
      rw [hej] at haj htj hkj hge
      exact ⟨i, j, hci2, hcj2, hai, hti, hki, haj, htj, hkj, hge⟩

theorem submitAll_clear : ∀ (reqs : List Request) (n : Nat) (s : Store) (l : List AddResult),
    Inv n s → PricesInRange s → (∀ u, ¬ Crossed s u) →
    (∀ r ∈ reqs, 0 < r.quantity ∧ 0 < r.price ∧ r.price < 1000000000) →
    submitAll s reqs = some l → ∀ a ∈ l, ∀ u, ¬ Crossed a.store u := by
  intro reqs
  induction reqs with
  | nil =>
    intro n s l _ _ _ _ hl
    rw [submitAll_nil] at hl
    rw [← Option.some.inj hl]
    exact fun a ha => absurd ha (List.not_mem_nil a)
  | cons r rs ih =>
    intro n s l h hp hclear hpos hl
    obtain ⟨a, l1, ha, hl1, rfl⟩ := submitAll_cons hl
    obtain ⟨hq, hp0, hp1⟩ := hpos r (List.mem_cons_self r rs)
    have hinv := addOrder_step_inv h hq ha
    obtain ⟨hpa, hca⟩ := addOrder_clear h hp hclear hq (lt_trans (by norm_num) hp0) hp1 ha
    intro a1 h1
    rcases List.mem_cons.mp h1 with heq | hin
    · rw [heq]; exact hca
    · exact ih (n + 1) a.store l1 hinv hpa hca
        (fun x hx => hpos x (List.mem_cons_of_mem r hx)) hl1 a1 hin

/-- Crossing correctness for prices below `1e9`: in a sequential run from the
empty store in which every request has a positive quantity and a positive
price below `1e9`, after every call no instrument has an active BUY and an
active SELL order with buy price at least the sell price. -/
theorem no_cross_below_1e9 (reqs : List Request) (l : List AddResult)
    (hpos : ∀ r ∈ reqs, 0 < r.quantity ∧ 0 < r.price ∧ r.price < 1000000000)
    (h : submitAll emptyStore reqs = some l) : ∀ a ∈ l, ∀ u, ¬ Crossed a.store u := by
  refine submitAll_clear reqs 0 emptyStore l Inv_empty (fun i => ?_) (fun u hcr => ?_) hpos h
  · show (-1 : ℚ) < 0 ∧ (0 : ℚ) < 1000000000
    norm_num
  · obtain ⟨i, _, _, _, hai, _⟩ := hcr
    exact absurd hai (by simp [emptyStore, zeroOrder])

/-! ## Further facts about the matching loop -/

theorem matchLoop_trades_le (t : Int) : ∀ (fuel : Nat) (s : Store) (r : MatchResult),
    matchLoop t fuel s (findBestOrders s t) = some r → r.trades.length ≤ qualCount s t := by
  apply matchLoop_induct
  · intro s _; exact Nat.zero_le _
  · intro s r hc ih
    have hlt := qualCount_afterTrade_lt hc
    show (tradeOf t s (findBestOrders s t) :: r.trades).length ≤ qualCount s t
    rw [List.length_cons]
    omega

theorem afterTrade_exhausts {s : Store} {t : Int} (hc : loopCond (findBestOrders s t)) :
    (((afterTrade s (findBestOrders s t)).orders (findBestOrders s t).bestBuy.toNat).quantity = 0 ∧
      ((afterTrade s (findBestOrders s t)).orders (findBestOrders s t).bestBuy.toNat).active
        = false) ∨
    (((afterTrade s (findBestOrders s t)).orders (findBestOrders s t).bestSell.toNat).quantity = 0 ∧
      ((afterTrade s (findBestOrders s t)).orders (findBestOrders s t).bestSell.toNat).active
        = false) := by
  obtain ⟨_, _, _, _, hne, _⟩ := loopCond_facts hc
  rcases tradeQty_eq s (findBestOrders s t) with he | he
  · left
    rw [afterTrade_orders hne, if_pos (Or.inr rfl)]
    simp [he]
  · right
    rw [afterTrade_orders hne, if_pos (Or.inl rfl)]
    simp [he]

theorem breakTaken_succ (t : Int) (fuel : Nat) (s : Store) (b : Best) :
    breakTaken t (fuel + 1) s b =
      if loopCond b then
        if (s.orders b.bestBuy.toNat).quantity ≤ 0 ∨ (s.orders b.bestSell.toNat).quantity ≤ 0 then
          true
        else breakTaken t fuel (afterTrade s b) (findBestOrders (afterTrade s b) t)
      else false := rfl

theorem breakTaken_scan (t : Int) : ∀ (fuel : Nat) (s : Store),
    breakTaken t fuel s (findBestOrders s t) = false := by
  intro fuel
  induction fuel with
  | zero => intro s; rfl
  | succ fuel ih =>
    intro s
    rw [breakTaken_succ]
    by_cases hc : loopCond (findBestOrders s t)
    · rw [if_pos hc]
      obtain ⟨hbq, hsq, _⟩ := loopCond_facts hc
      rw [if_neg (by
        intro hor
        rcases hor with h1 | h1
        · exact absurd hbq.2.2.2 (not_lt.mpr h1)
        · exact absurd hsq.2.2.2 (not_lt.mpr h1))]
      exact ih _
    · rw [if_neg hc]

/-- With scan locals that do not come from a scan the re-check can fire: on the
empty store with both indices 0 and crossing prices the loop breaks at once. -/
theorem breakTaken_possible :
    breakTaken 0 1 emptyStore
      { bestBuy := 0, bestSell := 0, bestBuyPrice := 1, bestSellPrice := 0 } = true := by
  decide

theorem tradeQty_eq_min (s : Store) (b : Best) :
    tradeQty s b =
      min (s.orders b.bestBuy.toNat).quantity (s.orders b.bestSell.toNat).quantity := by
  unfold tradeQty
  split_ifs with h
  · exact (min_eq_left (le_of_lt h)).symm
  · exact (min_eq_right (not_lt.mp h)).symm

theorem matchLoop_quantities (t : Int) : ∀ (fuel : Nat) (s : Store) (r : MatchResult),
    matchLoop t fuel s (findBestOrders s t) = some r →
      ∀ tr ∈ r.trades, TradeQtyOK s r.trace tr := by
  apply matchLoop_induct
  · intro s _ tr h; exact absurd h (List.not_mem_nil tr)
  · intro s r hc ih tr hmem
    obtain ⟨hbq, hsq, _, _, hne, _⟩ := loopCond_facts hc
    rcases List.mem_cons.mp hmem with heq | hin
    · rw [heq]
      refine ⟨s, ⟨[], afterBuyDeact s (findBestOrders s t) ::
        afterTrade s (findBestOrders s t) :: r.trace, rfl⟩, hne, tradeQty_eq_min s _,
        tradeQty_pos hbq.2.2.2 hsq.2.2.2⟩
    · obtain ⟨pre, ⟨l1, l2, hl⟩, h2, h3, h4⟩ := ih tr hin
      refine ⟨pre, ⟨s :: afterBuySub s (findBestOrders s t) ::
        afterSellSub s (findBestOrders s t) :: afterBuyDeact s (findBestOrders s t) :: l1, l2, ?_⟩,
        h2, h3, h4⟩
      simp only [List.cons_append, List.append_assoc] at hl ⊢
      rw [hl]

theorem matchLoop_beyond (t : Int) : ∀ (fuel : Nat) (s : Store) (r : MatchResult),
    matchLoop t fuel s (findBestOrders s t) = some r →
      ∀ i, s.orderCount.toNat ≤ i → r.store.orders i = s.orders i := by
  apply matchLoop_induct
  · intro s _ i _; rfl
  · intro s r hc ih i hi
    obtain ⟨hbq, hsq, hbn, hsn, hne, _⟩ := loopCond_facts hc
    have hcount : (afterTrade s (findBestOrders s t)).orderCount = s.orderCount :=
      (QStep_iteration hne hbq.2.2.2 hsq.2.2.2).1.1
    show r.store.orders i = s.orders i
    rw [ih i (by rw [hcount]; exact hi), afterTrade_orders hne, if_neg]
    rintro (h | h) <;> omega

theorem sum_range_sub_single (f g : Nat → Int) (n k : Nat) (hk : k < n) (d : Int)
    (hg : ∀ i, i ≠ k → g i = f i) (hgk : g k = f k - d) :
    Finset.sum (Finset.range n) g = Finset.sum (Finset.range n) f - d := by
  rw [← Finset.add_sum_erase (Finset.range n) f (Finset.mem_range.mpr hk),
    ← Finset.add_sum_erase (Finset.range n) g (Finset.mem_range.mpr hk), hgk]
  have : Finset.sum ((Finset.range n).erase k) g = Finset.sum ((Finset.range n).erase k) f :=
    Finset.sum_congr rfl (fun i hi => hg i (Finset.ne_of_mem_erase hi))
  rw [this]
  ring

theorem afterTrade_quantity {s : Store} {b : Best} (hne : b.bestBuy.toNat ≠ b.bestSell.toNat)
    (i : Nat) :
    ((afterTrade s b).orders i).quantity =
      if i = b.bestSell.toNat ∨ i = b.bestBuy.toNat then (s.orders i).quantity - tradeQty s b
      else (s.orders i).quantity := by
  rw [afterTrade_orders hne]
  by_cases h : i = b.bestSell.toNat ∨ i = b.bestBuy.toNat
  · rw [if_pos h, if_pos h]
  · rw [if_neg h, if_neg h]

theorem totalQty_afterTrade {s : Store} {t : Int} (hc : loopCond (findBestOrders s t)) :
    totalQty (afterTrade s (findBestOrders s t)) t OrderType.BUY =
      totalQty s t OrderType.BUY - tradeQty s (findBestOrders s t) ∧
    totalQty (afterTrade s (findBestOrders s t)) t OrderType.SELL =
      totalQty s t OrderType.SELL - tradeQty s (findBestOrders s t) := by
  obtain ⟨hbq, hsq, hbn, hsn, hne, _⟩ := loopCond_facts hc
  have hstep := QStep_iteration hne hbq.2.2.2 hsq.2.2.2
  have hcount : (afterTrade s (findBestOrders s t)).orderCount = s.orderCount := hstep.1.1
  have hty : ∀ i, ((afterTrade s (findBestOrders s t)).orders i).type = (s.orders i).type :=
    fun i => (hstep.1.2.2 i).2.1
  have htk : ∀ i, ((afterTrade s (findBestOrders s t)).orders i).ticker = (s.orders i).ticker :=
    fun i => (hstep.1.2.2 i).2.2.1
  unfold totalQty
  rw [hcount]
  constructor
  · apply sum_range_sub_single _ _ _ _ hbn
    · intro i hi
      simp only [hty, htk, afterTrade_quantity hne]
      by_cases his : i = (findBestOrders s t).bestSell.toNat
      · have hsell : (s.orders i).type = OrderType.SELL := by rw [his]; exact hsq.2.2.1
        simp [hsell]
      · rw [if_neg (show ¬ (i = (findBestOrders s t).bestSell.toNat ∨
          i = (findBestOrders s t).bestBuy.toNat) from fun h => h.elim his hi)]
    · simp only [hty, htk, afterTrade_quantity hne]
      simp [hbq.2.2.1, hbq.2.1]
  · apply sum_range_sub_single _ _ _ _ hsn
    · intro i hi
      simp only [hty, htk, afterTrade_quantity hne]
      by_cases hib : i = (findBestOrders s t).bestBuy.toNat
      · have hbuy : (s.orders i).type = OrderType.BUY := by rw [hib]; exact hbq.2.2.1
        simp [hbuy]
      · rw [if_neg (show ¬ (i = (findBestOrders s t).bestSell.toNat ∨
          i = (findBestOrders s t).bestBuy.toNat) from fun h => h.elim hi hib)]
    · simp only [hty, htk, afterTrade_quantity hne]
      simp [hsq.2.2.1, hsq.2.1]

theorem matchLoop_conserves (t : Int) : ∀ (fuel : Nat) (s : Store) (r : MatchResult),
    matchLoop t fuel s (findBestOrders s t) = some r →
      totalQty s t OrderType.BUY - totalQty r.store t OrderType.BUY = tradedQty r.trades ∧
      totalQty s t OrderType.SELL - totalQty r.store t OrderType.SELL = tradedQty r.trades := by
  apply matchLoop_induct
  · intro s _
    exact ⟨by simp [tradedQty], by simp [tradedQty]⟩
  · intro s r hc ih
    obtain ⟨h1, h2⟩ := totalQty_afterTrade hc
    obtain ⟨ih1, ih2⟩ := ih
    have hq : tradedQty (tradeOf t s (findBestOrders s t) :: r.trades) =
        tradeQty s (findBestOrders s t) + tradedQty r.trades := by
      simp [tradedQty, tradeOf]
    show totalQty s t OrderType.BUY - totalQty r.store t OrderType.BUY = _ ∧
      totalQty s t OrderType.SELL - totalQty r.store t OrderType.SELL = _
    rw [hq]
    constructor
    · rw [h1] at ih1; linarith
    · rw [h2] at ih2; linarith

/-! ## The newly submitted order is a party to every trade of its call -/

theorem loopCond_visPair {s : Store} {t : Int} (hc : loopCond (findBestOrders s t)) :
    VisPair s t (findBestOrders s t).bestBuy.toNat (findBestOrders s t).bestSell.toNat := by
  obtain ⟨hbq, hsq, _, _, _, hp⟩ := loopCond_facts hc
  refine ⟨hbq, hsq, ?_, ?_, hp⟩
  · rcases scanTo_buySpec s t s.orderCount.toNat with ⟨hb, _, _⟩ | ⟨k, _, hb, _, hgt, _, _, _⟩
    · exact absurd hb hc.1
    · rw [findBestOrders_eq_scanTo, hb, Int.toNat_ofNat]; exact hgt
  · rcases scanTo_sellSpec s t s.orderCount.toNat with ⟨hb, _, _⟩ | ⟨k, _, hb, _, hlt, _, _, _⟩
    · exact absurd hb hc.2.1
    · rw [findBestOrders_eq_scanTo, hb, Int.toNat_ofNat]; exact hlt

theorem exit_no_visPair {s : Store} {t : Int} (hexit : ¬ loopCond (findBestOrders s t))
    {i j : Nat} (hi : i < s.orderCount.toNat) (hj : j < s.orderCount.toNat) :
    ¬ VisPair s t i j := by
  rintro ⟨hqi, hqj, hgi, hlj, hle⟩
  apply hexit
  rw [findBestOrders_eq_scanTo]
  rcases scanTo_buySpec s t s.orderCount.toNat with ⟨_, _, hall⟩ | ⟨k, _, hb, hbp, _, _, hall, _⟩
  · exact absurd (hall i hi hqi) (not_le.mpr hgi)
  · rcases scanTo_sellSpec s t s.orderCount.toNat with
      ⟨_, _, hall2⟩ | ⟨m, _, hsl, hsp, _, _, hall2, _⟩
    · exact absurd (hall2 j hj hqj) (not_le.mpr hlj)
    · refine ⟨?_, ?_, ?_⟩
      · rw [hb]; omega
      · rw [hsl]; omega
      · rw [hbp, hsp]
        exact le_trans (hall2 j hj hqj) (le_trans hle (hall i hi hqi))

theorem qualifies_of_QStep {s1 s2 : Store} (h : QStep s1 s2) {t : Int} {side : OrderType}
    {i : Nat} (hq : qualifies s2 t side i) : qualifies s1 t side i := by
  obtain ⟨ha, ht, hty, hpos⟩ := hq
  obtain ⟨_, f2, f3, _⟩ := h.1.2.2 i
  obtain ⟨q1, _, q3⟩ := h.2 i
  exact ⟨q3 ha, f3 ▸ ht, f2 ▸ hty, lt_of_lt_of_le hpos q1⟩

theorem VisPair_of_QStep {s1 s2 : Store} (h : QStep s1 s2) {t : Int} {i j : Nat}
    (hv : VisPair s2 t i j) : VisPair s1 t i j := by
  obtain ⟨hqi, hqj, hgi, hlj, hle⟩ := hv
  rw [(h.1.2.2 i).2.2.2] at hgi hle
  rw [(h.1.2.2 j).2.2.2] at hlj hle
  exact ⟨qualifies_of_QStep h hqi, qualifies_of_QStep h hqj, hgi, hlj, hle⟩

/-- If in the store at loop entry every pair the scan can pair involves slot `k`,
every trade of the pass has slot `k` as buy side or as sell side. -/
theorem matchLoop_newcomer (t : Int) (k : Nat) : ∀ (fuel : Nat) (s : Store) (r : MatchResult),
    matchLoop t fuel s (findBestOrders s t) = some r →
      (∀ i j, i < s.orderCount.toNat → j < s.orderCount.toNat → VisPair s t i j →
        i = k ∨ j = k) →
      ∀ tr ∈ r.trades, tr.buy = k ∨ tr.sell = k := by
  apply matchLoop_induct
  · intro s _ _ tr h; exact absurd h (List.not_mem_nil tr)
  · intro s r hc ih hk tr hmem
    obtain ⟨hbq, hsq, hbn, hsn, hne, _⟩ := loopCond_facts hc
    have hstep := QStep_iteration hne hbq.2.2.2 hsq.2.2.2
    rcases List.mem_cons.mp hmem with heq | hin
    · rw [heq]
      exact hk _ _ hbn hsn (loopCond_visPair hc)
    · refine ih (fun i j hi hj hv => ?_) tr hin
      rw [hstep.1.1] at hi hj
      exact hk i j hi hj (VisPair_of_QStep hstep hv)

/-- One call from a store reached after `n` calls in which no instrument has a
pair the scan can pair: afterwards again no instrument has one, and every
trade of the call has the new slot `n` as buy side or as sell side. -/
theorem addOrder_newcomer {n : Nat} {s : Store} {ty : OrderType} {t q : Int} {p : ℚ}
    {a : AddResult} (h : IdInv n s) (hclear : ∀ u, ¬ VisCrossed s u)
    (ha : addOrder s ty t q p = some a) :
    (∀ u, ¬ VisCrossed a.store u) ∧ ∀ tr ∈ a.trades, tr.buy = n ∨ tr.sell = n := by
  obtain ⟨hn, _, hcase⟩ := addOrder_step h ha
  have hcount := IdInv_orderCount h hn
  rcases hcase with ⟨_, hn5, _, htrades, hord⟩ | ⟨_, hn5, r, hr, hst, _, htrades⟩
  · refine ⟨fun u hcr => hclear u ?_, fun tr htr => ?_⟩
    · obtain ⟨i, j, hci, hcj, hv⟩ := hcr
      have hv2 : VisPair s u i j := by
        unfold VisPair qualifies at hv ⊢
        rw [hord] at hv
        exact hv
      refine ⟨i, j, ⟨?_, hci.2⟩, ⟨?_, hcj.2⟩, hv2⟩
      · have := hci.2; unfold MAX_ORDERS at this; omega
      · have := hcj.2; unfold MAX_ORDERS at this; omega
    · rw [htrades] at htr; exact absurd htr (List.not_mem_nil tr)
  · obtain ⟨_, hqs, _, _, hexit, _⟩ := matchLoop_spec t _ _ r hr
    have hother := matchLoop_other t _ _ r hr
    have hc2 : (afterInsert s ty t q p).orderCount = (n : Int) + 1 := by
      show wrap32 (s.orderCount + 1) = _
      rw [hcount]
      exact wrap32_of_range (by omega) (by omega)
    have hc1 : r.store.orderCount = (n : Int) + 1 := by rw [hqs.1.1]; exact hc2
    have htn : s.orderCount.toNat = n := by rw [hcount]; exact Int.toNat_ofNat n
    rw [hst, htrades]
    refine ⟨fun u hcr => ?_, ?_⟩
    · by_cases hu : u = t
      · rw [hu] at hcr
        obtain ⟨i, j, hci, hcj, hv⟩ := hcr
        have hi : i < r.store.orderCount.toNat := by have := hci.1; omega
        have hj : j < r.store.orderCount.toNat := by have := hcj.1; omega
        exact exit_no_visPair hexit hi hj hv
      · apply hclear u
        have hback : ∀ i, created r.store i → (r.store.orders i).ticker = u →
            created s i ∧ r.store.orders i = s.orders i := by
          intro i hci hti
          have htk : ((afterInsert s ty t q p).orders i).ticker = u := by
            rw [← (hqs.1.2.2 i).2.2.1]; exact hti
          have hne : i ≠ s.orderCount.toNat := by
            intro heq
            rw [afterInsert_orders, if_pos heq] at htk
            exact hu htk.symm
          have hcs : created s i := by
            refine ⟨?_, hci.2⟩
            have := hci.1
            rw [hc1] at this
            rw [htn] at hne
            rw [hcount]
            omega
          refine ⟨hcs, ?_⟩
          rw [hother i (by rw [htk]; exact hu), afterInsert_orders_created hcs]
        obtain ⟨i, j, hci, hcj, hv⟩ := hcr
        obtain ⟨hci2, hei⟩ := hback i hci hv.1.2.1
        obtain ⟨hcj2, hej⟩ := hback j hcj hv.2.1.2.1
        refine ⟨i, j, hci2, hcj2, ?_⟩
        unfold VisPair qualifies at hv ⊢
        rw [hei, hej] at hv
        exact hv
    · apply matchLoop_newcomer t n _ _ r hr
      intro i j hi hj hv
      rw [hc2] at hi hj
      by_contra hcon
      rw [not_or] at hcon
      have hi2 : created s i := by
        refine ⟨?_, ?_⟩
        · rw [hcount]; have := hcon.1; omega
        · unfold MAX_ORDERS; have := hcon.1; omega
      have hj2 : created s j := by
        refine ⟨?_, ?_⟩
        · rw [hcount]; have := hcon.2; omega
        · unfold MAX_ORDERS; have := hcon.2; omega
      apply hclear t
      refine ⟨i, j, hi2, hj2, ?_⟩
      unfold VisPair qualifies at hv ⊢
      rw [afterInsert_orders_created hi2, afterInsert_orders_created hj2] at hv
      exact hv

theorem submitAll_newcomer : ∀ (reqs : List Request) (n : Nat) (s : Store)
    (l : List AddResult), IdInv n s → (∀ u, ¬ VisCrossed s u) → submitAll s reqs = some l →
    ∀ a ∈ l, ∀ id, a.outcome = Outcome.accepted id →
      ∀ tr ∈ a.trades, (tr.buy : Int) = id ∨ (tr.sell : Int) = id := by
  intro reqs
  induction reqs with
  | nil =>
    intro n s l _ _ hl
    rw [submitAll_nil] at hl
    rw [← Option.some.inj hl]
    exact fun a ha => absurd ha (List.not_mem_nil a)
  | cons r rs ih =>
    intro n s l h hclear hl
    obtain ⟨a, l1, ha, hl1, rfl⟩ := submitAll_cons hl
    obtain ⟨_, hinv, hcase⟩ := addOrder_step h ha
    obtain ⟨hclear2, hnew⟩ := addOrder_newcomer h hclear ha
    intro a1 h1 id hid tr htr
    rcases List.mem_cons.mp h1 with heq | hin
    · rw [heq] at hid htr
      have hidn : id = (n : Int) := by
        rcases hcase with ⟨hb, _⟩ | ⟨hacc, _⟩
        · rw [hb] at hid; exact absurd hid (by simp)
        · rw [hacc] at hid; exact (Outcome.accepted.inj hid).symm
      rw [hidn]
      rcases hnew tr htr with hb | hs
      · left; rw [hb]
      · right; rw [hs]
    · exact ih (n + 1) a.store l1 hinv hclear2 hl1 a1 hin id hid tr htr

theorem emptyStore_not_visCrossed (u : Int) : ¬ VisCrossed emptyStore u := by
  rintro ⟨i, _, _, _, hv, _⟩
  exact absurd hv.1 (by simp [emptyStore, zeroOrder])

theorem addOrder_newcomerCall {n : Nat} {s : Store} {req : Request} {a : AddResult}
    (h : IdInv n s) (hclear : ∀ u, ¬ VisCrossed s u)
    (ha : addOrder s req.type req.ticker req.quantity req.price = some a) :
    NewcomerCall req a := by
  intro id hid tr htr
  obtain ⟨hn, _, hcase⟩ := addOrder_step h ha
  have hcount := IdInv_orderCount h hn
  obtain ⟨_, hnew⟩ := addOrder_newcomer h hclear ha
  rcases hcase with ⟨hb, _⟩ | ⟨hacc, hn5, r, hr, hst, _, htrades⟩
  · rw [hb] at hid; exact absurd hid (by simp)
  · have hidn : id = (n : Int) := by
      rw [hacc] at hid; exact (Outcome.accepted.inj hid).symm
    have htn : s.orderCount.toNat = n := by rw [hcount]; exact Int.toNat_ofNat n
    have hg : s.globalOrderId = (n : Int) := by
      rw [h.2.2.1]; exact min_eq_left (by omega)
    obtain ⟨_, hqs, _, _, _, hspec⟩ := matchLoop_spec req.ticker _ _ r hr
    have hc2 : (afterInsert s req.type req.ticker req.quantity req.price).orderCount.toNat
        = n + 1 := by
      have : (afterInsert s req.type req.ticker req.quantity req.price).orderCount
          = (n : Int) + 1 := by
        show wrap32 (s.orderCount + 1) = _
        rw [hcount]
        exact wrap32_of_range (by omega) (by omega)
      rw [this]; omega
    have htr2 : tr ∈ r.trades := by rw [← htrades]; exact htr
    obtain ⟨_, _, h3, h4, h5, h6, _, _, h9, _, _⟩ := hspec tr htr2
    rw [hc2] at h3 h4
    have hslot : (afterInsert s req.type req.ticker req.quantity req.price).orders n =
        { orderId := s.globalOrderId, type := req.type, ticker := req.ticker,
          quantity := req.quantity, price := req.price, active := true } := by
      rw [afterInsert_orders, htn, if_pos rfl]
    have hidt : id.toNat = n := by rw [hidn]; exact Int.toNat_ofNat n
    rw [hidn]
    unfold NewcomerTrade
    rw [hst, Int.toNat_ofNat]
    refine ⟨?_, by omega, by omega, ?_, ?_, ?_, ?_, ?_, ?_⟩
    · rcases hnew tr htr with hb | hs
      · left; rw [hb]
      · right; rw [hs]
    · rw [(hqs.1.2.2 tr.buy).2.1]; exact h5
    · rw [(hqs.1.2.2 tr.sell).2.1]; exact h6
    · rw [(hqs.1.2.2 tr.sell).2.2.2]; exact h9
    · rw [(hqs.1.2.2 n).2.1, hslot]
    · rw [(hqs.1.2.2 n).2.2.2, hslot]
    · rw [(hqs.1.2.2 n).1, hslot]; exact hg

theorem submitAll_newcomerCall : ∀ (reqs : List Request) (n : Nat) (s : Store)
    (l : List AddResult), IdInv n s → (∀ u, ¬ VisCrossed s u) → submitAll s reqs = some l →
    List.Forall₂ NewcomerCall reqs l := by
  intro reqs
  induction reqs with
  | nil =>
    intro n s l _ _ hl
    rw [submitAll_nil] at hl
    rw [← Option.some.inj hl]
    exact List.Forall₂.nil
  | cons r rs ih =>
    intro n s l h hclear hl
    obtain ⟨a, l1, ha, hl1, rfl⟩ := submitAll_cons hl
    obtain ⟨_, hinv, _⟩ := addOrder_step h ha
    obtain ⟨hclear2, _⟩ := addOrder_newcomer h hclear ha
    exact List.Forall₂.cons (addOrder_newcomerCall h hclear ha)
      (ih (n + 1) a.store l1 hinv hclear2 hl1)

theorem forall₂_mem_right {α β : Type} {R : α → β → Prop} {l1 : List α} {l2 : List β}
    (h : List.Forall₂ R l1 l2) : ∀ b ∈ l2, ∃ a ∈ l1, R a b := by
  induction h with
  | nil => intro b hb; exact absurd hb (List.not_mem_nil b)
  | cons hab _ ih =>
    intro b hb
    rcases List.mem_cons.mp hb with heq | hin
    · rw [heq]; exact ⟨_, List.mem_cons_self _ _, hab⟩
    · obtain ⟨a, ha, hr⟩ := ih b hin
      exact ⟨a, List.mem_cons_of_mem _ ha, hr⟩

theorem natCast_eq_toNat {k : Nat} {id : Int} (h : (k : Int) = id) : k = id.toNat := by
  rw [← h]; exact (Int.toNat_ofNat k).symm

theorem PriceRule_of_NewcomerCall {req : Request} {a : AddResult} (h : NewcomerCall req a) :
    PriceRule req a := by
  intro id hid tr htr
  obtain ⟨hor, hble, hsle, hbt, hst, hp, hty, hpr, _⟩ := h id hid tr htr
  refine ⟨hst, hp, fun hbuy => ?_, fun hsell => ?_⟩
  · have hne : (tr.sell : Int) ≠ id := by
      intro heq
      rw [← natCast_eq_toNat heq, hst] at hty
      rw [hbuy] at hty
      exact absurd hty (by simp)
    rcases hor with hb | hs
    · exact ⟨hb, lt_of_le_of_ne hsle hne⟩
    · exact absurd hs hne
  · have hne : (tr.buy : Int) ≠ id := by
      intro heq
      rw [← natCast_eq_toNat heq, hbt] at hty
      rw [hsell] at hty
      exact absurd hty (by simp)
    rcases hor with hb | hs
    · exact absurd hb hne
    · refine ⟨hs, ?_⟩
      rw [hp, natCast_eq_toNat hs, hpr]

/-! ## Slot indices -/

theorem wrapRequests_length : wrapRequests.length = 2147483648 := List.length_replicate _ _

theorem chain_QStep_count : ∀ (l : List Store) (s : Store), List.Chain QStep s l →
    ∀ s1 ∈ l, s1.orderCount = s.orderCount := by
  intro l
  induction l with
  | nil => intro s _ s1 h1; exact absurd h1 (List.not_mem_nil s1)
  | cons x xs ih =>
    intro s hch s1 h1
    rw [List.chain_cons] at hch
    rcases List.mem_cons.mp h1 with heq | hin
    · rw [heq]; exact hch.1.1.1
    · rw [ih x hch.2 s1 hin]; exact hch.1.1.1

/-- Slot indices of one call on the store reached after `n` calls, when the call
has defined behaviour: an accepted call writes slot `id` with `0 <= id <
MAX_ORDERS`; every store at which its matching pass scans has `orderCount`
between 0 and `MAX_ORDERS`, so the scans read slots below `MAX_ORDERS` only;
and the two slots of every trade lie below `MAX_ORDERS`. -/
theorem addOrder_in_bounds {n : Nat} {s : Store} {ty : OrderType} {t q : Int} {p : ℚ}
    {a : AddResult} (h : IdInv n s) (ha : addOrder s ty t q p = some a) :
    (∀ id, a.outcome = Outcome.accepted id → 0 ≤ id ∧ id < MAX_ORDERS ∧ id = s.orderCount) ∧
    (∀ s1 ∈ a.trace, 0 ≤ s1.orderCount ∧ s1.orderCount ≤ MAX_ORDERS) ∧
    (∀ tr ∈ a.trades, (tr.buy : Int) < MAX_ORDERS ∧ (tr.sell : Int) < MAX_ORDERS) := by
  obtain ⟨hn, _, hcase⟩ := addOrder_step h ha
  have hcount := IdInv_orderCount h hn
  rcases hcase with ⟨hb, _, htr, htrades, _⟩ | ⟨hacc, hn5, r, hr, _, htr, htrades⟩
  · refine ⟨fun id hid => ?_, fun s1 h1 => ?_, fun tr h1 => ?_⟩
    · rw [hb] at hid; exact absurd hid (by simp)
    · rw [htr] at h1; exact absurd h1 (List.not_mem_nil s1)
    · rw [htrades] at h1; exact absurd h1 (List.not_mem_nil tr)
  · have hc2 : (afterInsert s ty t q p).orderCount = (n : Int) + 1 := by
      show wrap32 (s.orderCount + 1) = _
      rw [hcount]
      exact wrap32_of_range (by omega) (by omega)
    obtain ⟨hch, _, _, _, _, hspec⟩ := matchLoop_spec t _ _ r hr
    refine ⟨fun id hid => ?_, fun s1 h1 => ?_, fun tr h1 => ?_⟩
    · rw [hacc] at hid
      have := Outcome.accepted.inj hid
      unfold MAX_ORDERS
      rw [hcount]
      omega
    · rw [htr] at h1
      have hs1 : s1.orderCount = (n : Int) + 1 := by
        rcases List.mem_cons.mp h1 with heq | hin
        · rw [heq]; exact hc2
        · rw [chain_QStep_count _ _ hch s1 hin]; exact hc2
      unfold MAX_ORDERS
      omega
    · rw [htrades] at h1
      obtain ⟨_, _, h3, h4, _⟩ := hspec tr h1
      rw [hc2] at h3 h4
      unfold MAX_ORDERS
      omega

/-- Slot indices in a run from the empty store with defined behaviour (every run
of at most 2^31 calls has it, `submitAll_defined`): all writes of `addOrder`
and all reads and updates of the scans and of the matching loop are at slots
in `[0, MAX_ORDERS)`. -/
theorem submitAll_in_bounds : ∀ (reqs : List Request) (n : Nat) (s : Store)
    (l : List AddResult), IdInv n s → submitAll s reqs = some l →
    ∀ a ∈ l,
      (∀ id, a.outcome = Outcome.accepted id → 0 ≤ id ∧ id < MAX_ORDERS) ∧
      (∀ s1 ∈ a.trace, 0 ≤ s1.orderCount ∧ s1.orderCount ≤ MAX_ORDERS) ∧
      (∀ tr ∈ a.trades, (tr.buy : Int) < MAX_ORDERS ∧ (tr.sell : Int) < MAX_ORDERS) := by
  intro reqs
  induction reqs with
  | nil =>
    intro n s l _ hl
    rw [submitAll_nil] at hl
    rw [← Option.some.inj hl]
    exact fun a ha => absurd ha (List.not_mem_nil a)
  | cons r rs ih =>
    intro n s l h hl
    obtain ⟨a, l1, ha, hl1, rfl⟩ := submitAll_cons hl
    obtain ⟨_, hinv, _⟩ := addOrder_step h ha
    obtain ⟨h1, h2, h3⟩ := addOrder_in_bounds h ha
    intro a1 hmem
    rcases List.mem_cons.mp hmem with heq | hin
    · rw [heq]
      exact ⟨fun id hid => ⟨(h1 id hid).1, (h1 id hid).2.1⟩, h2, h3⟩
    · exact ih (n + 1) a.store l1 hinv hl1 a1 hin

/-- A run from the empty store has defined behaviour exactly when it has at most
2^31 calls. -/
theorem submitAll_isSome_iff (reqs : List Request) :
    (∃ l, submitAll emptyStore reqs = some l) ↔ reqs.length ≤ 2147483648 := by
  constructor
  · rintro ⟨l, hl⟩
    have := (submitAll_idInv reqs 0 emptyStore l Inv_empty.1 hl).1.1
    omega
  · intro hlen
    exact submitAll_defined reqs 0 emptyStore Inv_empty.1 (by omega)

theorem sampleResults_trades :
    sampleResults.map (fun a => a.trades) =
      [[], [{ ticker := 1, quantity := 50, price := 50, buy := 1, sell := 0 }], []] := by
  decide

/-! ## The claims -/

/-- C1, at the failing input: the two calls SELL 1 @ 1e9 and BUY 1 @ 2e9 on
instrument 0 (positive quantities and prices) both return, and in the store
reached instrument 0 still has an active BUY and an active SELL order with
buy price at least the sell price. -/
theorem C1_cross_left_at_sell_price_1e9 :
    submitAll emptyStore crossedRun = some crossedResults ∧
    (∀ r ∈ crossedRun, 0 < r.quantity ∧ 0 < r.price) ∧
    Crossed (finalStore emptyStore crossedResults) 0 :=
  ⟨rfl, by decide, 1, 0, by decide, by decide, by decide, by decide, by decide, by decide,
    by decide, by decide, by decide⟩

/-- C2: for every store and instrument, `matchOrder` returns, and every trade it
printed carries the limit price of the order in the slot it used as sell side:
that slot holds a SELL order, its price is the same in the initial store, in
the final store and in the store right after the sell order was decremented by
the trade quantity. -/
theorem C2_trade_price_is_sell_limit (s : Store) (t : Int) :
    ∃ r, matchOrder s t = some r ∧ ∀ tr ∈ r.trades,
      (s.orders tr.sell).type = OrderType.SELL ∧
      tr.price = (s.orders tr.sell).price ∧
      tr.price = (r.store.orders tr.sell).price ∧
      ∃ pre post, [pre, post] <:+: r.trace ∧ post = pre.subQuantity tr.sell tr.quantity ∧
        tr.price = (post.orders tr.sell).price := by
  obtain ⟨r, hr⟩ := matchOrder_isSome s t
  refine ⟨r, hr, fun tr hmem => ?_⟩
  obtain ⟨_, hq, _, _, _, hspec⟩ := matchLoop_spec t _ s r hr
  obtain ⟨_, _, _, _, _, h6, _, _, h9, _, hex⟩ := hspec tr hmem
  exact ⟨h6, h9, by rw [(hq.1.2.2 tr.sell).2.2.2]; exact h9, hex⟩

/-- C3, at the failing input: on the empty book SELL 100 @ 1e9 followed by
BUY 100 @ 1e9 on instrument 1 (positive quantities, positive prices, sell price
not above the buy price) prints no trade, and both orders stay active with 100
remaining; the claim asks for one trade of 100 at 1e9 and two inactive orders. -/
theorem C3_no_fill_at_sell_price_1e9 :
    ∃ a1 a2, addOrder emptyStore OrderType.SELL 1 100 1000000000 = some a1 ∧
      addOrder a1.store OrderType.BUY 1 100 1000000000 = some a2 ∧
      a1.trades = [] ∧ a2.trades = [] ∧
      (a2.store.orders 0).quantity = 100 ∧ (a2.store.orders 0).active = true ∧
      (a2.store.orders 1).quantity = 100 ∧ (a2.store.orders 1).active = true :=
  ⟨_, _, rfl, rfl, by decide, by decide, by decide, by decide, by decide, by decide⟩

/-- C4: on the empty book, for all positive quantities and positive prices
`pb < ps`, BUY `qb @ pb` followed by SELL `qs @ ps` on the same instrument: both
calls are accepted, neither prints a trade, and afterwards both orders are
active with their submitted quantities. -/
theorem C4_no_cross_no_trade (t qb qs : Int) (pb ps : ℚ) (_hqb : 0 < qb) (_hqs : 0 < qs)
    (_hpb : 0 < pb) (hlt : pb < ps) :
    ∃ a1 a2, addOrder emptyStore OrderType.BUY t qb pb = some a1 ∧
      addOrder a1.store OrderType.SELL t qs ps = some a2 ∧
      a1.trades = [] ∧ a1.events = [Event.added 0 OrderType.BUY t qb pb] ∧
      a2.trades = [] ∧ a2.events = [Event.added 1 OrderType.SELL t qs ps] ∧
      a2.store.orders 0 =
        { orderId := 0, type := OrderType.BUY, ticker := t, quantity := qb, price := pb,
          active := true } ∧
      a2.store.orders 1 =
        { orderId := 1, type := OrderType.SELL, ticker := t, quantity := qs, price := ps,
          active := true } := by
  have hc1 := oneOrder_orderCount OrderType.BUY t qb pb
  have hg1 := oneOrder_globalOrderId OrderType.BUY t qb pb
  have h1 : ¬ loopCond (findBestOrders (afterInsert emptyStore OrderType.BUY t qb pb) t) := by
    intro hc
    obtain ⟨_, hsq, _, hsn, _, _⟩ := loopCond_facts hc
    rw [hc1] at hsn
    have hty := hsq.2.2.1
    generalize (findBestOrders (afterInsert emptyStore OrderType.BUY t qb pb) t).bestSell.toNat
      = k at hsn hty
    have e1 : (1 : Int).toNat = 1 := rfl
    rw [e1] at hsn
    interval_cases k
    rw [oneOrder_orders] at hty
    exact absurd hty (by simp)
  have h2 : ¬ loopCond (findBestOrders
      (afterInsert (afterInsert emptyStore OrderType.BUY t qb pb) OrderType.SELL t qs ps) t) := by
    intro hc
    obtain ⟨hbq, hsq, hbn, hsn, _, hp⟩ := loopCond_facts hc
    rw [twoOrders_orderCount _ hc1] at hbn hsn
    have e2 : (2 : Int).toNat = 2 := rfl
    rw [e2] at hbn hsn
    have hb := hbq.2.2.1
    have hs := hsq.2.2.1
    generalize (findBestOrders (afterInsert (afterInsert emptyStore OrderType.BUY t qb pb)
      OrderType.SELL t qs ps) t).bestSell.toNat = k at hsn hs hp
    generalize (findBestOrders (afterInsert (afterInsert emptyStore OrderType.BUY t qb pb)
      OrderType.SELL t qs ps) t).bestBuy.toNat = m at hbn hb hp
    rw [twoOrders_orders _ hc1, oneOrder_orders] at hb hs hp
    rw [twoOrders_orders _ hc1, oneOrder_orders] at hp
    interval_cases k <;> interval_cases m <;> simp at hb hs hp
    exact absurd hlt (not_lt.mpr hp)
  refine ⟨_, _, addOrder_of_not_loopCond (by decide) (by decide) _ t qb pb h1,
    addOrder_of_not_loopCond (by rw [hc1]; decide) (by rw [hc1]; decide) _ t qs ps h2,
    rfl, rfl, rfl, ?_, ?_, ?_⟩
  · show [Event.added (afterInsert emptyStore OrderType.BUY t qb pb).globalOrderId
      OrderType.SELL t qs ps] = _
    rw [hg1]
  · show (afterInsert (afterInsert emptyStore OrderType.BUY t qb pb) OrderType.SELL t qs
      ps).orders 0 = _
    rw [twoOrders_orders _ hc1, oneOrder_orders]
    simp
  · show (afterInsert (afterInsert emptyStore OrderType.BUY t qb pb) OrderType.SELL t qs
      ps).orders 1 = _
    rw [twoOrders_orders _ hc1, hg1]
    simp

theorem C4_no_cross_no_trade_witness :
    (0 : Int) < 10 ∧ (0 : ℚ) < 40 ∧ (40 : ℚ) < 45 ∧
    ∃ a1 a2, addOrder emptyStore OrderType.BUY 1 10 40 = some a1 ∧
      addOrder a1.store OrderType.SELL 1 10 45 = some a2 ∧
      a1.trades = [] ∧ a1.events = [Event.added 0 OrderType.BUY 1 10 40] ∧
      a2.trades = [] ∧ a2.events = [Event.added 1 OrderType.SELL 1 10 45] ∧
      a2.store.orders 0 =
        { orderId := 0, type := OrderType.BUY, ticker := 1, quantity := 10, price := 40,
          active := true } ∧
      a2.store.orders 1 =
        { orderId := 1, type := OrderType.SELL, ticker := 1, quantity := 10, price := 45,
          active := true } :=
  ⟨by decide, by norm_num, by norm_num,
    C4_no_cross_no_trade 1 10 10 40 45 (by decide) (by decide) (by norm_num) (by norm_num)⟩

/-- C5, at the failing input: 50000 calls `addOrder(BUY, 0, 1, 10.0)` from the empty
store all return and leave the array full with `orderCount == MAX_ORDERS`; the
next call ends with BookFull, and `orderCount` is `MAX_ORDERS + 1` afterwards,
not its value before the call. -/
theorem C5_orderCount_advances_on_bookfull :
    ∃ l a, submitAll emptyStore fillRequests = some l ∧
      finalStore emptyStore l = fullStore ∧ fullStore.orderCount = MAX_ORDERS ∧
      addOrder fullStore OrderType.BUY 0 1 10 = some a ∧
      a.outcome = Outcome.BookFull ∧ a.store.orderCount = MAX_ORDERS + 1 := by
  obtain ⟨l, hl, hf⟩ := submitAll_buyStore 50000 0 (by omega)
  rw [buyStore_zero] at hl hf
  exact ⟨l, _, hl, hf, rfl, rfl, rfl, by decide⟩

/-- C6: whenever `addOrder` ends with BookFull, every slot of the array and the id
counter `globalOrderId` are as before the call, the only console line is the
book-full message (no order-added line, no trade line), and the call ran no
matching pass (no trade, no store passed through). -/
theorem C6_bookfull_creates_nothing (s : Store) (ty : OrderType) (t q : Int) (p : ℚ)
    (a : AddResult) (ha : addOrder s ty t q p = some a) (hb : a.outcome = Outcome.BookFull) :
    a.store.orders = s.orders ∧ a.store.globalOrderId = s.globalOrderId ∧
    a.events = [Event.bookFull] ∧ a.trades = [] ∧ a.trace = [] := by
  by_cases hfull : s.orderCount ≥ MAX_ORDERS
  · rw [addOrder_full hfull] at ha
    rw [← Option.some.inj ha]
    exact ⟨rfl, rfl, rfl, rfl, rfl⟩
  · by_cases hneg : s.orderCount < 0
    · rw [addOrder_neg hneg] at ha
      exact absurd ha (by simp)
    · rw [addOrder_ok (not_lt.mp hneg) (not_le.mp hfull), Option.map_eq_some'] at ha
      obtain ⟨r, _, hra⟩ := ha
      rw [← hra] at hb
      exact absurd hb (by simp)

theorem C6_bookfull_creates_nothing_witness :
    addOrder fullStore OrderType.BUY 0 1 10 = some fullResult ∧
    fullResult.outcome = Outcome.BookFull ∧
    (fullResult.store.orders = fullStore.orders ∧
      fullResult.store.globalOrderId = fullStore.globalOrderId ∧
      fullResult.events = [Event.bookFull] ∧ fullResult.trades = [] ∧ fullResult.trace = []) :=
  ⟨rfl, rfl, C6_bookfull_creates_nothing fullStore OrderType.BUY 0 1 10 fullResult rfl rfl⟩

/-- C7, at the failing input: after `addOrder(SELL, 0, 1, 1e9)` on the empty
store, slot 0 holds a qualifying SELL order of instrument 0 (active, remaining
quantity 1), yet `findBestOrders(0)` returns sell index `-1`: the scan starts
from `bestSellPrice = 1e9` and only accepts prices strictly below it. -/
theorem C7_scan_misses_sell_at_1e9 :
    ∃ a, addOrder emptyStore OrderType.SELL 0 1 1000000000 = some a ∧
      qualifies a.store 0 OrderType.SELL 0 ∧ (findBestOrders a.store 0).bestSell = -1 :=
  ⟨_, rfl, by decide, by decide⟩

/-- C8: in a sequential run from the empty store with positive quantities, in
every store the run passes through (after the new slot of a call is
initialised, after each `fetch_sub`, after each deactivation test, and when a
call returns) no remaining quantity is negative, and from each store to the
next no order that is already created has its remaining quantity raised. -/
theorem C8_quantity_monotone (reqs : List Request) (l : List AddResult)
    (hpos : ∀ r ∈ reqs, 0 < r.quantity) (h : submitAll emptyStore reqs = some l) :
    (∀ s ∈ emptyStore :: statesOf l, ∀ i, 0 ≤ (s.orders i).quantity) ∧
    List.Chain Mono emptyStore (statesOf l) := by
  obtain ⟨hch, hnn⟩ := submitAll_trace reqs 0 emptyStore l Inv_empty hpos h
  refine ⟨fun s hs i => ?_, hch⟩
  rcases List.mem_cons.mp hs with heq | hin
  · rw [heq]; exact le_refl _
  · exact hnn s hin i

theorem C8_quantity_monotone_witness :
    (∀ r ∈ sampleRun, 0 < r.quantity) ∧ submitAll emptyStore sampleRun = some sampleResults ∧
    ((∀ s ∈ emptyStore :: statesOf sampleResults, ∀ i, 0 ≤ (s.orders i).quantity) ∧
      List.Chain Mono emptyStore (statesOf sampleResults)) :=
  ⟨by decide, rfl, C8_quantity_monotone sampleRun sampleResults (by decide) rfl⟩

/-- C9: in a sequential run from the empty store with positive quantities, after
every call every order with remaining quantity 0 is inactive, and an order that
exists and is inactive after some call is inactive after every later call. -/
theorem C9_deactivation (reqs : List Request) (l : List AddResult)
    (hpos : ∀ r ∈ reqs, 0 < r.quantity) (h : submitAll emptyStore reqs = some l) :
    (∀ a ∈ l, ∀ i, (a.store.orders i).quantity = 0 → (a.store.orders i).active = false) ∧
    List.Pairwise StaysInactive l := by
  obtain ⟨h1, _, h3⟩ := submitAll_inactive reqs 0 emptyStore l Inv_empty hpos h
  exact ⟨fun a ha i hq => h1 a ha i (le_of_eq hq), h3⟩

theorem C9_deactivation_witness :
    (∀ r ∈ sampleRun, 0 < r.quantity) ∧ submitAll emptyStore sampleRun = some sampleResults ∧
    ((∀ a ∈ sampleResults, ∀ i,
        (a.store.orders i).quantity = 0 → (a.store.orders i).active = false) ∧
      List.Pairwise StaysInactive sampleResults) :=
  ⟨by decide, rfl, C9_deactivation sampleRun sampleResults (by decide) rfl⟩

/-- C10: in a sequential run from the empty store, of any two accepted calls the
earlier one got the strictly smaller `orderId`; and in the store reached, the ids
of the stored orders increase strictly with the slot index (so they are
pairwise distinct). -/
theorem C10_ids_strictly_increasing (reqs : List Request) (l : List AddResult)
    (h : submitAll emptyStore reqs = some l) :
    List.Pairwise IdBefore l ∧
    ∀ i j : Nat, i < j → created (finalStore emptyStore l) j →
      ((finalStore emptyStore l).orders i).orderId <
        ((finalStore emptyStore l).orders j).orderId := by
  refine ⟨(submitAll_ids reqs 0 emptyStore l Inv_empty.1 h).2, fun i j hij hc => ?_⟩
  obtain ⟨hinv, _⟩ := submitAll_idInv reqs 0 emptyStore l Inv_empty.1 h
  have hj := created_lt hinv hc
  rw [hinv.2.2.2 j hj, hinv.2.2.2 i (by omega)]
  omega

theorem C10_ids_strictly_increasing_witness :
    submitAll emptyStore sampleRun = some sampleResults ∧
      (List.Pairwise IdBefore sampleResults ∧
        ∀ i j : Nat, i < j → created (finalStore emptyStore sampleResults) j →
          ((finalStore emptyStore sampleResults).orders i).orderId <
            ((finalStore emptyStore sampleResults).orders j).orderId) :=
  ⟨rfl, C10_ids_strictly_increasing sampleRun sampleResults rfl⟩

/-- C11: for every store and instrument the matching loop of `matchOrder`
terminates: it returns after at most as many trades as there are qualifying
orders (any bound on the loop tests above that number gives a result), because
an iteration that executes a trade leaves at least one of the two matched
orders with remaining quantity 0 and inactive, so the number of qualifying
orders of the instrument is strictly smaller after the iteration. -/
theorem C11_matching_loop_terminates (s : Store) (t : Int) :
    (∃ r, matchOrder s t = some r ∧ r.trades.length ≤ qualCount s t) ∧
    (∀ fuel, qualCount s t < fuel → ∃ r, matchLoop t fuel s (findBestOrders s t) = some r) ∧
    (loopCond (findBestOrders s t) →
      ((((afterTrade s (findBestOrders s t)).orders
            (findBestOrders s t).bestBuy.toNat).quantity = 0 ∧
          ((afterTrade s (findBestOrders s t)).orders
            (findBestOrders s t).bestBuy.toNat).active = false) ∨
        (((afterTrade s (findBestOrders s t)).orders
            (findBestOrders s t).bestSell.toNat).quantity = 0 ∧
          ((afterTrade s (findBestOrders s t)).orders
            (findBestOrders s t).bestSell.toNat).active = false)) ∧
      qualCount (afterTrade s (findBestOrders s t)) t < qualCount s t) := by
  refine ⟨?_, fun fuel h => matchLoop_total t fuel s h,
    fun hc => ⟨afterTrade_exhausts hc, qualCount_afterTrade_lt hc⟩⟩
  obtain ⟨r, hr⟩ := matchOrder_isSome s t
  exact ⟨r, hr, matchLoop_trades_le t _ s r hr⟩

theorem C11_matching_loop_terminates_witness :
    loopCond (findBestOrders sampleBook 1) ∧
    (((((afterTrade sampleBook (findBestOrders sampleBook 1)).orders
            (findBestOrders sampleBook 1).bestBuy.toNat).quantity = 0 ∧
          ((afterTrade sampleBook (findBestOrders sampleBook 1)).orders
            (findBestOrders sampleBook 1).bestBuy.toNat).active = false) ∨
        (((afterTrade sampleBook (findBestOrders sampleBook 1)).orders
            (findBestOrders sampleBook 1).bestSell.toNat).quantity = 0 ∧
          ((afterTrade sampleBook (findBestOrders sampleBook 1)).orders
            (findBestOrders sampleBook 1).bestSell.toNat).active = false)) ∧
      qualCount (afterTrade sampleBook (findBestOrders sampleBook 1)) 1 <
        qualCount sampleBook 1) :=
  ⟨by decide, (C11_matching_loop_terminates sampleBook 1).2.2 (by decide)⟩

/-- C12, counterexample: on the empty book BUY 100 @ 60 rests in slot 0, then
SELL 100 @ 50 arrives and gets id 1 and slot 1. The call prints one trade, of
100 at price 50: the price of the newly submitted SELL order, not the 60
quoted by the resting BUY order. -/
theorem C12_sell_arrival_trades_at_own_price :
    ∃ a1 a2, addOrder emptyStore OrderType.BUY 1 100 60 = some a1 ∧
      addOrder a1.store OrderType.SELL 1 100 50 = some a2 ∧
      a2.outcome = Outcome.accepted 1 ∧
      a2.trades = [{ ticker := 1, quantity := 100, price := 50, buy := 0, sell := 1 }] ∧
      (a2.store.orders 0).price = 60 ∧ (a2.store.orders 1).price = 50 ∧
      ¬ SpecPassivePrice a2 1 :=
  ⟨_, _, rfl, rfl, rfl, by decide, by decide, by decide,
    fun h => absurd ((h _ (List.mem_singleton_self _)).2 rfl) (by decide)⟩

/-- C12, amended: in a sequential run from the empty store, for every trade
executed by the matching pass of an accepted call the execution price is the
limit price of the SELL order of the trade. When the call submitted a BUY,
the buy side is the new order and the sell side an order that was already
resting, so the price is the passive side's; when the call submitted a SELL,
the sell side is the new order and the price is the submitted price. -/
theorem C12_price_is_sell_side (reqs : List Request) (l : List AddResult)
    (h : submitAll emptyStore reqs = some l) : List.Forall₂ PriceRule reqs l :=
  (submitAll_newcomerCall reqs 0 emptyStore l Inv_empty.1 emptyStore_not_visCrossed h).imp
    (fun _ _ hc => PriceRule_of_NewcomerCall hc)

theorem C12_price_is_sell_side_witness :
    submitAll emptyStore sampleRun = some sampleResults ∧
    List.Forall₂ PriceRule sampleRun sampleResults :=
  ⟨rfl, C12_price_is_sell_side sampleRun sampleResults rfl⟩

/-- C13: for every store and instrument, `matchOrder` returns, and for every
trade it printed there is a store `pre` of the pass, followed by the stores
after the two `fetch_sub`s, such that the trade quantity is the minimum of the
remaining quantities of the two matched orders in `pre`, it is above 0 (so
both those quantities are above 0), and in the store after the second
`fetch_sub` each of the two orders has exactly that much less than in `pre`. -/
theorem C13_trade_quantity_is_min (s : Store) (t : Int) :
    ∃ r, matchOrder s t = some r ∧ ∀ tr ∈ r.trades,
      ∃ pre mid post, [pre, mid, post] <:+: (s :: r.trace) ∧
        mid = pre.subQuantity tr.buy tr.quantity ∧ post = mid.subQuantity tr.sell tr.quantity ∧
        tr.quantity = min (pre.orders tr.buy).quantity (pre.orders tr.sell).quantity ∧
        0 < tr.quantity ∧
        0 < (pre.orders tr.buy).quantity ∧ 0 < (pre.orders tr.sell).quantity ∧
        (post.orders tr.buy).quantity = (pre.orders tr.buy).quantity - tr.quantity ∧
        (post.orders tr.sell).quantity = (pre.orders tr.sell).quantity - tr.quantity := by
  obtain ⟨r, hr⟩ := matchOrder_isSome s t
  refine ⟨r, hr, fun tr hmem => ?_⟩
  obtain ⟨pre, hin, hne, hmin, hpos⟩ := matchLoop_quantities t _ s r hr tr hmem
  have hne2 : tr.sell ≠ tr.buy := fun h => hne h.symm
  refine ⟨pre, _, _, hin, rfl, rfl, hmin, hpos, ?_, ?_, ?_, ?_⟩
  · exact lt_of_lt_of_le hpos (by rw [hmin]; exact min_le_left _ _)
  · exact lt_of_lt_of_le hpos (by rw [hmin]; exact min_le_right _ _)
  · rw [subQuantity_orders, if_neg hne, subQuantity_orders, if_pos rfl]
  · rw [subQuantity_orders, if_pos rfl, subQuantity_orders, if_neg hne2]

/-- C14: for every store and instrument `t`, `matchOrder(t)` returns with the
order count and the id counter unchanged, with the id, side, instrument and
limit price of every order unchanged, and with every order of another
instrument unchanged in all its fields. -/
theorem C14_match_only_touches_instrument (s : Store) (t : Int) :
    ∃ r, matchOrder s t = some r ∧
      r.store.orderCount = s.orderCount ∧ r.store.globalOrderId = s.globalOrderId ∧
      (∀ i, (r.store.orders i).orderId = (s.orders i).orderId ∧
        (r.store.orders i).type = (s.orders i).type ∧
        (r.store.orders i).ticker = (s.orders i).ticker ∧
        (r.store.orders i).price = (s.orders i).price) ∧
      (∀ i, (s.orders i).ticker ≠ t → r.store.orders i = s.orders i) := by
  obtain ⟨r, hr⟩ := matchOrder_isSome s t
  obtain ⟨_, hq, _, _, _, _⟩ := matchLoop_spec t _ s r hr
  exact ⟨r, hr, hq.1.1, hq.1.2.1, hq.1.2.2, matchLoop_other t _ s r hr⟩

/-- C16: for every store and instrument, `matchOrder` returns, and every trade it
printed pairs a BUY order with a SELL order at a price that is at most the
limit price of the BUY order and equal to the limit price of the SELL order. -/
theorem C16_trade_within_limits (s : Store) (t : Int) :
    ∃ r, matchOrder s t = some r ∧ ∀ tr ∈ r.trades,
      (s.orders tr.buy).type = OrderType.BUY ∧ (s.orders tr.sell).type = OrderType.SELL ∧
      tr.price ≤ (s.orders tr.buy).price ∧ tr.price = (s.orders tr.sell).price := by
  obtain ⟨r, hr⟩ := matchOrder_isSome s t
  refine ⟨r, hr, fun tr hmem => ?_⟩
  obtain ⟨_, _, _, _, _, hspec⟩ := matchLoop_spec t _ s r hr
  obtain ⟨_, _, _, _, h5, h6, _, _, h9, h10, _⟩ := hspec tr hmem
  exact ⟨h5, h6, h10, h9⟩

/-- C17: for every store (also without the condition on active orders) and every
instrument `t`, `matchOrder(t)` returns; the total remaining quantity of the
BUY orders of `t` and that of the SELL orders of `t` both drop by the sum of
the quantities of the trades printed by the run; slots at or above
`orderCount` are not touched, so the totals over the scanned slots are the
totals over the array. -/
theorem C17_quantity_conserved (s : Store) (t : Int) :
    ∃ r, matchOrder s t = some r ∧
      totalQty s t OrderType.BUY - totalQty r.store t OrderType.BUY = tradedQty r.trades ∧
      totalQty s t OrderType.SELL - totalQty r.store t OrderType.SELL = tradedQty r.trades ∧
      r.store.orderCount = s.orderCount ∧
      ∀ i, s.orderCount.toNat ≤ i → r.store.orders i = s.orders i := by
  obtain ⟨r, hr⟩ := matchOrder_isSome s t
  obtain ⟨h1, h2⟩ := matchLoop_conserves t _ s r hr
  obtain ⟨_, hq, _, _, _, _⟩ := matchLoop_spec t _ s r hr
  exact ⟨r, hr, h1, h2, hq.1.1, matchLoop_beyond t _ s r hr⟩

/-- C18: in a sequential run from the empty store (positive quantities or not),
every trade executed during an accepted call has the order created by that
call, the one with the id the call assigned, as its buy side or as its sell
side, and an order from an earlier slot as the other side: two resting orders
never trade with each other. -/
theorem C18_newcomer_in_every_trade (reqs : List Request) (l : List AddResult)
    (h : submitAll emptyStore reqs = some l) :
    ∀ a ∈ l, ∀ id, a.outcome = Outcome.accepted id → ∀ tr ∈ a.trades,
      ((tr.buy : Int) = id ∧ (a.store.orders tr.buy).orderId = id ∧ (tr.sell : Int) < id) ∨
      ((tr.sell : Int) = id ∧ (a.store.orders tr.sell).orderId = id ∧ (tr.buy : Int) < id) := by
  intro a ha id hid tr htr
  have hall := submitAll_newcomerCall reqs 0 emptyStore l Inv_empty.1
    emptyStore_not_visCrossed h
  obtain ⟨req, _, hcall⟩ := forall₂_mem_right hall a ha
  obtain ⟨hor, hble, hsle, hbt, hst, _, _, _, hoid⟩ := hcall id hid tr htr
  have hne : (tr.buy : Int) ≠ (tr.sell : Int) := by
    intro heq
    have : tr.buy = tr.sell := by exact_mod_cast heq
    rw [this, hst] at hbt
    exact absurd hbt (by simp)
  rcases hor with hb | hs
  · left
    refine ⟨hb, ?_, ?_⟩
    · rw [natCast_eq_toNat hb]; exact hoid
    · rw [hb] at hne; exact lt_of_le_of_ne hsle (fun h2 => hne h2.symm)
  · right
    refine ⟨hs, ?_, ?_⟩
    · rw [natCast_eq_toNat hs]; exact hoid
    · rw [hs] at hne; exact lt_of_le_of_ne hble hne

theorem C18_newcomer_in_every_trade_witness :
    submitAll emptyStore sampleRun = some sampleResults ∧
    ∀ a ∈ sampleResults, ∀ id, a.outcome = Outcome.accepted id → ∀ tr ∈ a.trades,
      ((tr.buy : Int) = id ∧ (a.store.orders tr.buy).orderId = id ∧ (tr.sell : Int) < id) ∨
      ((tr.sell : Int) = id ∧ (a.store.orders tr.sell).orderId = id ∧ (tr.buy : Int) < id) :=
  ⟨rfl, C18_newcomer_in_every_trade sampleRun sampleResults rfl⟩

/-- C19: for every store and instrument, a run of `matchOrder` without
interference never takes the branch `buyQty <= 0 || sellQty <= 0`: whatever
the bound on the loop tests, the run from the scan result does not break;
whenever the loop test passes on a scan result both re-read quantities are
above 0; and the loop ends only with its test failing on the last scan. -/
theorem C19_recheck_never_fires (s : Store) (t : Int) :
    (∀ fuel, breakTaken t fuel s (findBestOrders s t) = false) ∧
    (loopCond (findBestOrders s t) →
      0 < (s.orders (findBestOrders s t).bestBuy.toNat).quantity ∧
      0 < (s.orders (findBestOrders s t).bestSell.toNat).quantity) ∧
    (∃ r, matchOrder s t = some r ∧ ¬ loopCond (findBestOrders r.store t)) := by
  refine ⟨fun fuel => breakTaken_scan t fuel s, fun hc => ?_, ?_⟩
  · obtain ⟨hbq, hsq, _⟩ := loopCond_facts hc
    exact ⟨hbq.2.2.2, hsq.2.2.2⟩
  · obtain ⟨r, hr⟩ := matchOrder_isSome s t
    obtain ⟨_, _, _, _, hexit, _⟩ := matchLoop_spec t _ s r hr
    exact ⟨r, hr, hexit⟩

theorem C19_recheck_never_fires_witness :
    loopCond (findBestOrders sampleBook 1) ∧
    (0 < (sampleBook.orders (findBestOrders sampleBook 1).bestBuy.toNat).quantity ∧
      0 < (sampleBook.orders (findBestOrders sampleBook 1).bestSell.toNat).quantity) :=
  ⟨by decide, (C19_recheck_never_fires sampleBook 1).2.1 (by decide)⟩

/-- C20, at the failing input: 2^31 sequential calls `addOrder(BUY, 0, 1, 10.0)`
from the empty store all return (50000 accepted, the others BookFull), and
since every one of them advanced `orderCount`, the counter has wrapped to
`-2147483648`. The next call reads that value as `idx`, the capacity test
`idx >= MAX_ORDERS` fails, and the call goes on to write `orders[idx]` at a
negative slot index: the model has no result for it. -/
theorem C20_negative_slot_after_2pow31_calls :
    ∃ l, submitAll emptyStore wrapRequests = some l ∧
      (finalStore emptyStore l).orderCount = -2147483648 ∧
      ¬ (finalStore emptyStore l).orderCount ≥ MAX_ORDERS ∧
      addOrder (finalStore emptyStore l) OrderType.BUY 0 1 10 = none := by
  obtain ⟨l, hl⟩ := submitAll_defined wrapRequests 0 emptyStore Inv_empty.1
    (by rw [wrapRequests_length])
  obtain ⟨hinv, _⟩ := submitAll_idInv _ 0 emptyStore l Inv_empty.1 hl
  rw [wrapRequests_length] at hinv
  have hc : (finalStore emptyStore l).orderCount = -2147483648 := by
    rw [hinv.2.1]; decide
  refine ⟨l, hl, hc, ?_, addOrder_neg (by rw [hc]; decide) _ _ _ _⟩
  rw [hc]; decide

end StockTradingEngine

